import Mathlib

/-!
Verification development for the BitSpeed identity reconciliation service.

The definitions below are a shallow embedding of the TypeScript service
`identifyContact` (src/services/contact.service.ts) and its helper
`formatResponse`, together with the contact store it operates on.  The store
is modelled as a list of contact rows plus a monotonically increasing id
counter; Prisma queries become list filters, the `orderBy createdAt asc`
clause becomes a stable insertion sort on the `createdAt` field, and the
per-row updates of the merge step become list maps.  JavaScript truthiness
on optional strings (where the empty string is falsy) and on optional
numeric ids (where 0 is falsy) is modelled explicitly, because the source
uses `if (email)`, `else if (contact.linkedId)` and `email || null`.
-/

namespace BitSpeed

/-- The `linkPrecedence` enum of the Contact model. -/
inductive LinkPrecedence where
  | primary
  | secondary
deriving DecidableEq, Repr

/-- One row of the Contact table.  `updatedAt` is omitted: no claim observes
it and no branch of the service reads it. -/
structure Contact where
  id : Nat
  email : Option String
  phoneNumber : Option String
  linkedId : Option Nat
  linkPrecedence : LinkPrecedence
  createdAt : Nat
  deletedAt : Option Nat
deriving DecidableEq, Repr

/-- The contact store: the persisted rows plus the id sequence.  A freshly
created row receives `nextId` both as its id and as its `createdAt`
timestamp, reflecting that ids are assigned monotonically in creation
order. -/
structure Store where
  contacts : List Contact
  nextId : Nat
deriving DecidableEq, Repr

/-- JavaScript truthiness of an optional string: `null`, `undefined` and the
empty string are all falsy.  The service tests `if (email)` and stores
`email || null`, so an empty string behaves exactly like an absent field. -/
def normalizeField : Option String → Option String
  | none => none
  | some s => if s = "" then none else some s

/-- JavaScript truthiness of an optional numeric id: `null` and `0` are
falsy.  The service tests `else if (contact.linkedId)`. -/
def truthyId : Option Nat → Option Nat
  | none => none
  | some n => if n = 0 then none else some n

/-- Insert a contact into a list that is already sorted by `createdAt`,
keeping earlier list elements in front of later ones with equal keys. -/
def insertByCreatedAt (c : Contact) : List Contact → List Contact
  | [] => [c]
  | x :: xs =>
    if x.createdAt < c.createdAt then x :: insertByCreatedAt c xs
    else c :: x :: xs

/-- Stable insertion sort by `createdAt`, modelling the
`orderBy: { createdAt: "asc" }` clause of the Prisma queries. -/
def sortByCreatedAt : List Contact → List Contact
  | [] => []
  | c :: cs => insertByCreatedAt c (sortByCreatedAt cs)

/-- `prisma.contact.create`: appends a fresh row and advances the id
sequence.  `deletedAt` starts out null. -/
def Store.createContact (s : Store) (email phoneNumber : Option String)
    (linkedId : Option Nat) (lp : LinkPrecedence) : Contact × Store :=
  let c : Contact :=
    { id := s.nextId, email := email, phoneNumber := phoneNumber,
      linkedId := linkedId, linkPrecedence := lp,
      createdAt := s.nextId, deletedAt := none }
  (c, { contacts := s.contacts ++ [c], nextId := s.nextId + 1 })

/-- The first query of the service: all non-deleted contacts whose email or
phone equals a supplied field, ordered by `createdAt`.  A condition is part
of the `OR` block only when the corresponding field was supplied (truthy);
here the arguments are already normalized, so supplied means `≠ none`. -/
def matchingContacts (s : Store) (email phoneNumber : Option String) :
    List Contact :=
  sortByCreatedAt (s.contacts.filter fun c =>
    decide (c.deletedAt = none ∧
      ((email ≠ none ∧ c.email = email) ∨
       (phoneNumber ≠ none ∧ c.phoneNumber = phoneNumber))))

/-- Resolve each matched contact to a candidate primary id: a primary
contributes its own id, a secondary contributes its `linkedId` when that id
is truthy. -/
def primaryIdsOf (ms : List Contact) : List Nat :=
  ms.filterMap fun c =>
    if c.linkPrecedence = .primary then some c.id else truthyId c.linkedId

/-- The second query: all non-deleted contacts whose id is a candidate
primary id, ordered by `createdAt`. -/
def primaryContactsOf (s : Store) (ids : List Nat) : List Contact :=
  sortByCreatedAt (s.contacts.filter fun c =>
    decide (c.id ∈ ids ∧ c.deletedAt = none))

/-- The `tx.contact.update` call of the merge loop: the row with id `dId`
has its `linkedId` set to the true primary and its `linkPrecedence` set to
secondary. -/
def demoteUpdate (tpId dId : Nat) (c : Contact) : Contact :=
  if c.id = dId then
    { c with linkedId := some tpId, linkPrecedence := .secondary }
  else c

/-- The `tx.contact.updateMany` call of the merge loop: every non-deleted
row whose `linkedId` is the demoted primary is re-pointed at the true
primary. -/
def relinkUpdate (tpId dId : Nat) (c : Contact) : Contact :=
  if c.linkedId = some dId ∧ c.deletedAt = none then
    { c with linkedId := some tpId }
  else c

/-- One iteration of the merge loop on a single row: first the demotion
update, then the relink update. -/
def demoteRelinkStep (tpId dId : Nat) (c : Contact) : Contact :=
  relinkUpdate tpId dId (demoteUpdate tpId dId c)

/-- One iteration of the merge loop on the store. -/
def demoteOne (tpId : Nat) (s : Store) (dId : Nat) : Store :=
  let s1 : Store := { s with contacts := s.contacts.map (demoteUpdate tpId dId) }
  { s1 with contacts := s1.contacts.map (relinkUpdate tpId dId) }

/-- The whole merge loop: every losing primary is demoted and its
secondaries are re-linked, in ascending `createdAt` order of the losing
primaries. -/
def mergeGroups (tpId : Nat) (dIds : List Nat) (s : Store) : Store :=
  dIds.foldl (demoteOne tpId) s

/-- The cumulative effect of the merge loop on a single row. -/
def demoteSteps (tpId : Nat) (dIds : List Nat) (c : Contact) : Contact :=
  dIds.foldl (fun c d => demoteRelinkStep tpId d c) c

/-- The group query of the new-information check and of the final fetch:
the true primary together with every non-deleted contact linked to it. -/
def liveGroup (s : Store) (tpId : Nat) : List Contact :=
  s.contacts.filter fun c =>
    decide ((c.id = tpId ∨ c.linkedId = some tpId) ∧ c.deletedAt = none)

/-- `hasNewInfo`: at least one of the supplied values is missing from the
distinct known emails / phones of the group. -/
def hasNewInfo (group : List Contact) (e p : String) : Bool :=
  !(group.any fun c => c.email == some e) ||
  !(group.any fun c => c.phoneNumber == some p)

/-- `exactMatch`: some row of the group carries exactly the supplied
(email, phoneNumber) pair. -/
def exactMatchExists (group : List Contact) (e p : String) : Bool :=
  group.any fun c => c.email == some e && c.phoneNumber == some p

/-- The new-information check: only runs when both fields were supplied;
creates a secondary linked to the true primary when the group has new
information and no exact duplicate row. -/
def maybeCreateSecondary (s : Store) (tpId : Nat)
    (email phoneNumber : Option String) : Store :=
  match email, phoneNumber with
  | some e, some p =>
    let group := liveGroup s tpId
    if hasNewInfo group e p && !exactMatchExists group e p then
      (s.createContact (some e) (some p) (some tpId) .secondary).2
    else s
  | _, _ => s

/-- The final fetch: the consolidated group ordered by `createdAt`. -/
def finalGroup (s : Store) (tpId : Nat) : List Contact :=
  sortByCreatedAt (liveGroup s tpId)

/-- Push a truthy value onto a deduplicated list, keeping the first
occurrence: `if (v && !xs.includes(v)) xs.push(v)`. -/
def addValue (xs : List String) (v : Option String) : List String :=
  match normalizeField v with
  | some s => if s ∈ xs then xs else xs ++ [s]
  | none => xs

/-- The email accumulation of the `formatResponse` loop. -/
def collectEmails (es : List String) : List Contact → List String
  | [] => es
  | c :: cs => collectEmails (addValue es c.email) cs

/-- The phone accumulation of the `formatResponse` loop. -/
def collectPhones (ps : List String) : List Contact → List String
  | [] => ps
  | c :: cs => collectPhones (addValue ps c.phoneNumber) cs

/-- The consolidated identity returned by the service, with the historical
field name kept verbatim. -/
structure IdentifyResponse where
  primaryContatctId : Nat
  emails : List String
  phoneNumbers : List String
  secondaryContactIds : List Nat
deriving DecidableEq, Repr

/-- `formatResponse`: the primary contributes its own truthy email and
phone first, then the loop over the secondaries appends unseen truthy
values and collects every secondary id.  The TypeScript loop updates the
three accumulators independently, so it is written here as three
independent traversals. -/
def formatResponse (primary : Contact) (secondaries : List Contact) :
    IdentifyResponse :=
  { primaryContatctId := primary.id,
    emails := collectEmails (normalizeField primary.email).toList secondaries,
    phoneNumbers :=
      collectPhones (normalizeField primary.phoneNumber).toList secondaries,
    secondaryContactIds := secondaries.map (fun c => c.id) }

/-- The failure conditions of the service: the explicit invalid-input throw,
and the runtime TypeError reached when the fetched primary list is empty
(`primaryContacts[0]` is undefined). -/
inductive IdentifyError where
  | invalidInput
  | runtimeError
deriving DecidableEq, Repr

/-- The body of `identifyContact` after the input guard, on already
normalized fields. -/
def identifyMatched (s : Store) (email phoneNumber : Option String) :
    Except IdentifyError (IdentifyResponse × Store) :=
  match matchingContacts s email phoneNumber with
  | [] =>
    let created := s.createContact email phoneNumber none .primary
    .ok (formatResponse created.1 [], created.2)
  | m :: ms =>
    match primaryContactsOf s (primaryIdsOf (m :: ms)) with
    | [] => .error .runtimeError
    | truePrimary :: others =>
      let s2 := mergeGroups truePrimary.id (others.map (fun c => c.id)) s
      let s3 := maybeCreateSecondary s2 truePrimary.id email phoneNumber
      let secondaries :=
        (finalGroup s3 truePrimary.id).filter fun c =>
          decide (c.id ≠ truePrimary.id)
      .ok (formatResponse truePrimary secondaries, s3)

/-- The service entry point `identifyContact(data)`: it throws when neither
field is truthy, otherwise runs the matching pipeline on the truthy
values. -/
def identifyContact (s : Store) (email phoneNumber : Option String) :
    Except IdentifyError (IdentifyResponse × Store) :=
  if normalizeField email = none ∧ normalizeField phoneNumber = none then
    .error .invalidInput
  else
    identifyMatched s (normalizeField email) (normalizeField phoneNumber)

/-- The atomic writes issued inside the merge transaction. -/
inductive WriteOp where
  | demote (dId tpId : Nat)
  | relinkAll (dId tpId : Nat)
deriving DecidableEq, Repr

/-- Effect of one write on the store. -/
def applyWrite (s : Store) : WriteOp → Store
  | .demote dId tpId => { s with contacts := s.contacts.map (demoteUpdate tpId dId) }
  | .relinkAll dId tpId => { s with contacts := s.contacts.map (relinkUpdate tpId dId) }

/-- The write list issued by the merge loop: for each losing primary, its
demotion followed by the bulk relink of its secondaries. -/
def mergeWrites (tpId : Nat) : List Nat → List WriteOp
  | [] => []
  | d :: ds => .demote d tpId :: .relinkAll d tpId :: mergeWrites tpId ds

/-- Run a write list against the store, where the oracle `fails` says which
write attempts fail; `k` counts the writes attempted so far.  Returns none
as soon as a write fails. -/
def runWrites (fails : Nat → Bool) (k : Nat) (s : Store) :
    List WriteOp → Option Store
  | [] => some s
  | op :: ops =>
    if fails k then none else runWrites fails (k + 1) (applyWrite s op) ops

/-- Modelled from the spec: the transactional grouping primitive of the
store collaborator (`prisma.$transaction`, an external dependency not part
of the repository source) applies a write list all-or-nothing — if any
write fails the transaction rolls back and the pre-state stays visible.
Returns the visible store and whether the transaction committed. -/
def runTransaction (fails : Nat → Bool) (s : Store) (ops : List WriteOp) :
    Store × Bool :=
  match runWrites fails 0 s ops with
  | some s1 => (s1, true)
  | none => (s, false)

/-- Basic well-formedness of the store: row ids are distinct, positive and
below the id sequence, and the sequence is positive. -/
def Store.WF (s : Store) : Prop :=
  (s.contacts.map (fun c => c.id)).Nodup ∧
  (∀ c ∈ s.contacts, c.id < s.nextId) ∧
  (∀ c ∈ s.contacts, 0 < c.id) ∧
  0 < s.nextId

/-- The data-model invariants of the spec, over non-deleted rows: a live
primary has no `linkedId`, and a live secondary points at a live primary
row. -/
def Store.Inv (s : Store) : Prop :=
  s.WF ∧
  (∀ c ∈ s.contacts, c.deletedAt = none →
    c.linkPrecedence = .primary → c.linkedId = none) ∧
  (∀ c ∈ s.contacts, c.deletedAt = none →
    c.linkPrecedence = .secondary →
    ∃ p ∈ s.contacts, c.linkedId = some p.id ∧
      p.linkPrecedence = .primary ∧ p.deletedAt = none)

instance (s : Store) : Decidable s.WF := by
  unfold Store.WF; infer_instance

instance (s : Store) : Decidable s.Inv := by
  unfold Store.Inv; infer_instance

/-- Stores reachable from `s` through successful Resolve calls. -/
inductive ReachableFrom (s : Store) : Store → Prop where
  | refl : ReachableFrom s s
  | step (t u : Store) (email phoneNumber : Option String)
      (r : IdentifyResponse) : ReachableFrom s t →
      identifyContact t email phoneNumber = .ok (r, u) → ReachableFrom s u

/-! ### Basic lemmas about field normalization -/

theorem normalizeField_idem (x : Option String) :
    normalizeField (normalizeField x) = normalizeField x := by
  cases x with
  | none => rfl
  | some s =>
    by_cases h : s = "" <;> simp [normalizeField, h]

theorem normalizeField_eq_some {x : Option String} {v : String}
    (h : normalizeField x = some v) : x = some v := by
  cases x with
  | none => simp [normalizeField] at h
  | some s =>
    by_cases hs : s = "" <;> simp [normalizeField, hs] at h
    simp [h]

theorem normalizeField_of_eq_some {x : Option String} {v : String}
    (h : normalizeField x = some v) : normalizeField x = x := by
  rw [h, normalizeField_eq_some h]

/-! ### Lemmas about the stable sort by createdAt -/

theorem insertByCreatedAt_perm (c : Contact) (l : List Contact) :
    (insertByCreatedAt c l).Perm (c :: l) := by
  induction l with
  | nil => exact List.Perm.refl _
  | cons x xs ih =>
    by_cases h : x.createdAt < c.createdAt
    · simp only [insertByCreatedAt, if_pos h]
      exact (ih.cons x).trans (List.Perm.swap c x xs)
    · simp only [insertByCreatedAt, if_neg h]
      exact List.Perm.refl _

theorem sortByCreatedAt_perm (l : List Contact) :
    (sortByCreatedAt l).Perm l := by
  induction l with
  | nil => exact List.Perm.refl _
  | cons c cs ih =>
    exact (insertByCreatedAt_perm c (sortByCreatedAt cs)).trans (ih.cons c)

theorem mem_sortByCreatedAt {a : Contact} {l : List Contact} :
    a ∈ sortByCreatedAt l ↔ a ∈ l :=
  (sortByCreatedAt_perm l).mem_iff

theorem sortByCreatedAt_eq_nil {l : List Contact} :
    sortByCreatedAt l = [] ↔ l = [] := by
  constructor
  · intro h
    have := sortByCreatedAt_perm l
    rw [h] at this
    exact this.symm.eq_nil
  · intro h; subst h; rfl

theorem insertByCreatedAt_sorted {c : Contact} {l : List Contact}
    (h : l.Pairwise (fun a b => a.createdAt ≤ b.createdAt)) :
    (insertByCreatedAt c l).Pairwise (fun a b => a.createdAt ≤ b.createdAt) := by
  induction l with
  | nil => simp [insertByCreatedAt]
  | cons x xs ih =>
    rw [List.pairwise_cons] at h
    by_cases hx : x.createdAt < c.createdAt
    · simp only [insertByCreatedAt, if_pos hx]
      rw [List.pairwise_cons]
      refine ⟨fun b hb => ?_, ih h.2⟩
      rcases List.mem_cons.mp ((insertByCreatedAt_perm c xs).mem_iff.mp hb) with
        hb | hb
      · exact hb ▸ Nat.le_of_lt hx
      · exact h.1 b hb
    · simp only [insertByCreatedAt, if_neg hx]
      rw [List.pairwise_cons]
      refine ⟨fun b hb => ?_, List.pairwise_cons.mpr h⟩
      rcases List.mem_cons.mp hb with hb | hb
      · exact hb ▸ Nat.le_of_not_lt hx
      · exact Nat.le_trans (Nat.le_of_not_lt hx) (h.1 b hb)

theorem sortByCreatedAt_sorted (l : List Contact) :
    (sortByCreatedAt l).Pairwise (fun a b => a.createdAt ≤ b.createdAt) := by
  induction l with
  | nil => simp [sortByCreatedAt]
  | cons c cs ih => exact insertByCreatedAt_sorted ih

/-- The head of a createdAt-sorted list has minimal createdAt. -/
theorem head_min_of_sorted {tp : Contact} {rest : List Contact}
    (h : (tp :: rest).Pairwise (fun a b => a.createdAt ≤ b.createdAt)) :
    ∀ q ∈ tp :: rest, tp.createdAt ≤ q.createdAt := by
  intro q hq
  rcases List.mem_cons.mp hq with hq | hq
  · simp [hq]
  · exact (List.pairwise_cons.mp h).1 q hq

/-! ### Small list helpers -/

/-- Two rows of a store with distinct ids are equal when their ids agree. -/
theorem eq_of_mem_of_id_eq {l : List Contact}
    (hnd : (l.map (fun c => c.id)).Nodup) {a b : Contact}
    (ha : a ∈ l) (hb : b ∈ l) (h : a.id = b.id) : a = b :=
  List.inj_on_of_nodup_map hnd ha hb h

/-- A duplicate-free list whose members all equal `a`, and which contains
`a`, is `[a]`. -/
theorem eq_singleton_of_nodup_of_forall {l : List Contact} {a : Contact}
    (hnd : l.Nodup) (hmem : a ∈ l) (hall : ∀ x ∈ l, x = a) : l = [a] := by
  cases l with
  | nil => cases hmem
  | cons x xs =>
    have hx : x = a := hall x (by simp)
    subst hx
    cases xs with
    | nil => rfl
    | cons y ys =>
      have hy : y = x := hall y (by simp)
      rw [List.nodup_cons] at hnd
      exact absurd (hy ▸ List.mem_cons_self y ys) hnd.1

/-! ### Per-row behaviour of one merge-loop iteration -/

theorem demoteRelinkStep_id (tpId d : Nat) (c : Contact) :
    (demoteRelinkStep tpId d c).id = c.id := by
  unfold demoteRelinkStep demoteUpdate relinkUpdate
  split <;> split <;> rfl

theorem demoteRelinkStep_email (tpId d : Nat) (c : Contact) :
    (demoteRelinkStep tpId d c).email = c.email := by
  unfold demoteRelinkStep demoteUpdate relinkUpdate
  split <;> split <;> rfl

theorem demoteRelinkStep_phoneNumber (tpId d : Nat) (c : Contact) :
    (demoteRelinkStep tpId d c).phoneNumber = c.phoneNumber := by
  unfold demoteRelinkStep demoteUpdate relinkUpdate
  split <;> split <;> rfl

theorem demoteRelinkStep_createdAt (tpId d : Nat) (c : Contact) :
    (demoteRelinkStep tpId d c).createdAt = c.createdAt := by
  unfold demoteRelinkStep demoteUpdate relinkUpdate
  split <;> split <;> rfl

theorem demoteRelinkStep_deletedAt (tpId d : Nat) (c : Contact) :
    (demoteRelinkStep tpId d c).deletedAt = c.deletedAt := by
  unfold demoteRelinkStep demoteUpdate relinkUpdate
  split <;> split <;> rfl

theorem demoteRelinkStep_linkedId_self {tpId d : Nat} {c : Contact}
    (hd : tpId ≠ d) (hc : c.linkedId = some tpId) :
    (demoteRelinkStep tpId d c).linkedId = some tpId := by
  by_cases h1 : c.id = d <;>
    simp [demoteRelinkStep, demoteUpdate, relinkUpdate, h1, hc, hd]

theorem demoteRelinkStep_lp_of_ne {tpId d : Nat} {c : Contact}
    (h1 : c.id ≠ d) :
    (demoteRelinkStep tpId d c).linkPrecedence = c.linkPrecedence := by
  simp only [demoteRelinkStep, demoteUpdate, relinkUpdate, if_neg h1]
  split <;> rfl

theorem demoteRelinkStep_lp_secondary {tpId d : Nat} {c : Contact}
    (h : c.linkPrecedence = .secondary) :
    (demoteRelinkStep tpId d c).linkPrecedence = .secondary := by
  by_cases h1 : c.id = d
  · simp [demoteRelinkStep, demoteUpdate, relinkUpdate, h1]
  · rw [demoteRelinkStep_lp_of_ne h1]; exact h

theorem demoteRelinkStep_of_id_eq {tpId d : Nat} {c : Contact}
    (hd : tpId ≠ d) (h1 : c.id = d) :
    (demoteRelinkStep tpId d c).linkedId = some tpId ∧
    (demoteRelinkStep tpId d c).linkPrecedence = .secondary := by
  simp [demoteRelinkStep, demoteUpdate, relinkUpdate, h1, hd]

theorem demoteRelinkStep_untouched {tpId d : Nat} {c : Contact}
    (h1 : c.id ≠ d) (h2 : c.linkedId ≠ some d) :
    demoteRelinkStep tpId d c = c := by
  simp [demoteRelinkStep, demoteUpdate, relinkUpdate, h1, h2]

theorem demoteRelinkStep_relinked {tpId d : Nat} {c : Contact}
    (h1 : c.id ≠ d) (h2 : c.linkedId = some d) (h3 : c.deletedAt = none) :
    (demoteRelinkStep tpId d c).linkedId = some tpId := by
  simp [demoteRelinkStep, demoteUpdate, relinkUpdate, h1, h2, h3]

/-! ### Cumulative behaviour of the merge loop on one row -/

theorem demoteSteps_nil (tpId : Nat) (c : Contact) :
    demoteSteps tpId [] c = c := rfl

theorem demoteSteps_cons (tpId d : Nat) (ds : List Nat) (c : Contact) :
    demoteSteps tpId (d :: ds) c =
      demoteSteps tpId ds (demoteRelinkStep tpId d c) := rfl

theorem demoteSteps_id (tpId : Nat) (ds : List Nat) (c : Contact) :
    (demoteSteps tpId ds c).id = c.id := by
  induction ds generalizing c with
  | nil => rfl
  | cons d ds ih =>
    rw [demoteSteps_cons, ih, demoteRelinkStep_id]

theorem demoteSteps_email (tpId : Nat) (ds : List Nat) (c : Contact) :
    (demoteSteps tpId ds c).email = c.email := by
  induction ds generalizing c with
  | nil => rfl
  | cons d ds ih =>
    rw [demoteSteps_cons, ih, demoteRelinkStep_email]

theorem demoteSteps_phoneNumber (tpId : Nat) (ds : List Nat) (c : Contact) :
    (demoteSteps tpId ds c).phoneNumber = c.phoneNumber := by
  induction ds generalizing c with
  | nil => rfl
  | cons d ds ih =>
    rw [demoteSteps_cons, ih, demoteRelinkStep_phoneNumber]

theorem demoteSteps_createdAt (tpId : Nat) (ds : List Nat) (c : Contact) :
    (demoteSteps tpId ds c).createdAt = c.createdAt := by
  induction ds generalizing c with
  | nil => rfl
  | cons d ds ih =>
    rw [demoteSteps_cons, ih, demoteRelinkStep_createdAt]

theorem demoteSteps_deletedAt (tpId : Nat) (ds : List Nat) (c : Contact) :
    (demoteSteps tpId ds c).deletedAt = c.deletedAt := by
  induction ds generalizing c with
  | nil => rfl
  | cons d ds ih =>
    rw [demoteSteps_cons, ih, demoteRelinkStep_deletedAt]

/-- A row already pointing at the true primary keeps doing so. -/
theorem demoteSteps_linkedId_self {tpId : Nat} {ds : List Nat} {c : Contact}
    (h : tpId ∉ ds) (hc : c.linkedId = some tpId) :
    (demoteSteps tpId ds c).linkedId = some tpId := by
  induction ds generalizing c with
  | nil => exact hc
  | cons d ds ih =>
    rw [demoteSteps_cons]
    exact ih (fun hm => h (List.mem_cons_of_mem _ hm))
      (demoteRelinkStep_linkedId_self
        (fun he => h (he ▸ List.mem_cons_self _ _)) hc)

/-- A row that is already a secondary pointing at the true primary stays
that way for the rest of the loop. -/
theorem demoteSteps_secondary_stable {tpId : Nat} {ds : List Nat}
    {c : Contact} (h : tpId ∉ ds) (hl : c.linkedId = some tpId)
    (hp : c.linkPrecedence = .secondary) :
    (demoteSteps tpId ds c).linkPrecedence = .secondary := by
  induction ds generalizing c with
  | nil => exact hp
  | cons d ds ih =>
    rw [demoteSteps_cons]
    exact ih (fun hm => h (List.mem_cons_of_mem _ hm))
      (demoteRelinkStep_linkedId_self
        (fun he => h (he ▸ List.mem_cons_self _ _)) hl)
      (demoteRelinkStep_lp_secondary hp)

/-- A losing primary ends up demoted and pointing at the true primary. -/
theorem demoteSteps_demoted {tpId : Nat} {ds : List Nat} {c : Contact}
    (h : tpId ∉ ds) (hc : c.id ∈ ds) :
    (demoteSteps tpId ds c).linkPrecedence = .secondary ∧
    (demoteSteps tpId ds c).linkedId = some tpId := by
  induction ds generalizing c with
  | nil => cases hc
  | cons d ds ih =>
    have htp : tpId ≠ d := fun he => h (he ▸ List.mem_cons_self _ _)
    have hds : tpId ∉ ds := fun hm => h (List.mem_cons_of_mem _ hm)
    rw [demoteSteps_cons]
    by_cases h1 : c.id = d
    · obtain ⟨hl, hp⟩ := demoteRelinkStep_of_id_eq htp h1
      exact ⟨demoteSteps_secondary_stable hds hl hp,
        demoteSteps_linkedId_self hds hl⟩
    · have hc2 : c.id ∈ ds := by
        rcases List.mem_cons.mp hc with hx | hx
        · exact absurd hx h1
        · exact hx
      have := ih hds (c := demoteRelinkStep tpId d c)
      rw [demoteRelinkStep_id] at this
      exact this hc2

/-- A live row pointing at a losing primary ends up pointing at the true
primary. -/
theorem demoteSteps_relinked {tpId : Nat} {ds : List Nat} {c : Contact}
    (h : tpId ∉ ds) (hlive : c.deletedAt = none) {d0 : Nat} (hd0 : d0 ∈ ds)
    (hc : c.linkedId = some d0) :
    (demoteSteps tpId ds c).linkedId = some tpId := by
  induction ds generalizing c with
  | nil => cases hd0
  | cons d ds ih =>
    have htp : tpId ≠ d := fun he => h (he ▸ List.mem_cons_self _ _)
    have hds : tpId ∉ ds := fun hm => h (List.mem_cons_of_mem _ hm)
    rw [demoteSteps_cons]
    by_cases h1 : c.id = d
    · exact demoteSteps_linkedId_self hds
        (demoteRelinkStep_of_id_eq htp h1).1
    · by_cases hdd : d0 = d
      · exact demoteSteps_linkedId_self hds
          (demoteRelinkStep_relinked h1 (hdd ▸ hc) hlive)
      · have hd0' : d0 ∈ ds := by
          rcases List.mem_cons.mp hd0 with hx | hx
          · exact absurd hx hdd
          · exact hx
        have hne : c.linkedId ≠ some d := by
          rw [hc]; exact fun he => hdd (by simpa using he)
        rw [demoteRelinkStep_untouched h1 hne]
        exact ih hds hlive hd0' hc

/-- A row that is not a losing primary and points at none of them is left
alone by the whole merge loop. -/
theorem demoteSteps_untouched {tpId : Nat} {ds : List Nat} {c : Contact}
    (h1 : c.id ∉ ds) (h2 : ∀ d ∈ ds, c.linkedId ≠ some d) :
    demoteSteps tpId ds c = c := by
  induction ds with
  | nil => rfl
  | cons d ds ih =>
    rw [demoteSteps_cons,
      demoteRelinkStep_untouched
        (fun he => h1 (he ▸ List.mem_cons_self _ _))
        (h2 d (List.mem_cons_self _ _))]
    exact ih (fun hm => h1 (List.mem_cons_of_mem _ hm))
      (fun d2 hm => h2 d2 (List.mem_cons_of_mem _ hm))

/-- The loop never changes the precedence of a row that is not a losing
primary. -/
theorem demoteSteps_lp_of_not_mem {tpId : Nat} {ds : List Nat} {c : Contact}
    (h1 : c.id ∉ ds) :
    (demoteSteps tpId ds c).linkPrecedence = c.linkPrecedence := by
  induction ds generalizing c with
  | nil => rfl
  | cons d ds ih =>
    have hne : c.id ≠ d := fun he => h1 (he ▸ List.mem_cons_self _ _)
    rw [demoteSteps_cons]
    have := ih (c := demoteRelinkStep tpId d c)
    rw [demoteRelinkStep_id] at this
    rw [this (fun hm => h1 (List.mem_cons_of_mem _ hm)),
      demoteRelinkStep_lp_of_ne hne]

/-! ### Shape of the merged store -/

theorem demoteOne_contacts (tpId : Nat) (s : Store) (d : Nat) :
    (demoteOne tpId s d).contacts =
      s.contacts.map (demoteRelinkStep tpId d) := by
  simp only [demoteOne, List.map_map]
  rfl

theorem demoteOne_nextId (tpId : Nat) (s : Store) (d : Nat) :
    (demoteOne tpId s d).nextId = s.nextId := rfl

theorem mergeGroups_nil (tpId : Nat) (s : Store) :
    mergeGroups tpId [] s = s := rfl

theorem mergeGroups_cons (tpId d : Nat) (ds : List Nat) (s : Store) :
    mergeGroups tpId (d :: ds) s = mergeGroups tpId ds (demoteOne tpId s d) :=
  rfl

theorem mergeGroups_contacts (tpId : Nat) (ds : List Nat) (s : Store) :
    (mergeGroups tpId ds s).contacts =
      s.contacts.map (demoteSteps tpId ds) := by
  induction ds generalizing s with
  | nil =>
    simp only [mergeGroups_nil]
    exact (List.map_id' s.contacts).symm
  | cons d ds ih =>
    rw [mergeGroups_cons, ih, demoteOne_contacts, List.map_map]
    rfl

theorem mergeGroups_nextId (tpId : Nat) (ds : List Nat) (s : Store) :
    (mergeGroups tpId ds s).nextId = s.nextId := by
  induction ds generalizing s with
  | nil => rfl
  | cons d ds ih => rw [mergeGroups_cons, ih, demoteOne_nextId]

/-! ### Characterizations of the pipeline queries -/

theorem truthyId_eq_some {o : Option Nat} {x : Nat} :
    truthyId o = some x ↔ o = some x ∧ x ≠ 0 := by
  cases o with
  | none => simp [truthyId]
  | some n =>
    simp only [truthyId]
    by_cases h : n = 0
    · subst h
      rw [if_pos rfl]
      constructor
      · intro hx; cases hx
      · rintro ⟨hx, hne⟩
        cases hx
        exact absurd rfl hne
    · rw [if_neg h]
      simp only [Option.some.injEq]
      constructor
      · rintro rfl
        exact ⟨rfl, h⟩
      · rintro ⟨rfl, _⟩
        rfl

theorem mem_matchingContacts {s : Store} {e p : Option String} {c : Contact} :
    c ∈ matchingContacts s e p ↔
      c ∈ s.contacts ∧ c.deletedAt = none ∧
        ((e ≠ none ∧ c.email = e) ∨ (p ≠ none ∧ c.phoneNumber = p)) := by
  unfold matchingContacts
  rw [mem_sortByCreatedAt, List.mem_filter]
  simp

theorem matchingContacts_eq_nil_iff {s : Store} {e p : Option String} :
    matchingContacts s e p = [] ↔
      ∀ c ∈ s.contacts, ¬(c.deletedAt = none ∧
        ((e ≠ none ∧ c.email = e) ∨ (p ≠ none ∧ c.phoneNumber = p))) := by
  rw [List.eq_nil_iff_forall_not_mem]
  constructor
  · intro h c hc hpred
    exact h c (mem_matchingContacts.mpr ⟨hc, hpred⟩)
  · intro h c hc
    obtain ⟨h1, h2⟩ := mem_matchingContacts.mp hc
    exact h c h1 h2

theorem mem_primaryIdsOf {ms : List Contact} {x : Nat} :
    x ∈ primaryIdsOf ms ↔ ∃ m ∈ ms,
      (if m.linkPrecedence = .primary then some m.id
       else truthyId m.linkedId) = some x := by
  unfold primaryIdsOf
  exact List.mem_filterMap

theorem primaryIdsOf_intro_primary {ms : List Contact} {m : Contact}
    (hm : m ∈ ms) (hp : m.linkPrecedence = .primary) :
    m.id ∈ primaryIdsOf ms :=
  mem_primaryIdsOf.mpr ⟨m, hm, by rw [if_pos hp]⟩

theorem primaryIdsOf_intro_linked {ms : List Contact} {m : Contact} {i : Nat}
    (hm : m ∈ ms) (hp : m.linkPrecedence ≠ .primary)
    (hl : m.linkedId = some i) (hi : i ≠ 0) : i ∈ primaryIdsOf ms :=
  mem_primaryIdsOf.mpr ⟨m, hm, by
    rw [if_neg hp]
    exact truthyId_eq_some.mpr ⟨hl, hi⟩⟩

theorem primaryIdsOf_elim {ms : List Contact} {x : Nat}
    (h : x ∈ primaryIdsOf ms) :
    ∃ m ∈ ms, (m.linkPrecedence = .primary ∧ x = m.id) ∨
      (m.linkPrecedence ≠ .primary ∧ m.linkedId = some x ∧ x ≠ 0) := by
  obtain ⟨m, hm, he⟩ := mem_primaryIdsOf.mp h
  refine ⟨m, hm, ?_⟩
  by_cases hp : m.linkPrecedence = .primary
  · rw [if_pos hp] at he
    exact Or.inl ⟨hp, (Option.some.injEq _ _ ▸ he).symm⟩
  · rw [if_neg hp] at he
    obtain ⟨h1, h2⟩ := truthyId_eq_some.mp he
    exact Or.inr ⟨hp, h1, h2⟩

theorem mem_primaryContactsOf {s : Store} {ids : List Nat} {q : Contact} :
    q ∈ primaryContactsOf s ids ↔
      q ∈ s.contacts ∧ q.id ∈ ids ∧ q.deletedAt = none := by
  unfold primaryContactsOf
  rw [mem_sortByCreatedAt, List.mem_filter]
  simp

theorem primaryContactsOf_nodup_ids {s : Store} {ids : List Nat}
    (h : (s.contacts.map (fun c => c.id)).Nodup) :
    ((primaryContactsOf s ids).map (fun c => c.id)).Nodup := by
  unfold primaryContactsOf
  rw [((sortByCreatedAt_perm _).map (fun c => c.id)).nodup_iff]
  exact h.sublist ((List.filter_sublist s.contacts).map (fun c => c.id))

theorem primaryContactsOf_sorted (s : Store) (ids : List Nat) :
    (primaryContactsOf s ids).Pairwise
      (fun a b => a.createdAt ≤ b.createdAt) :=
  sortByCreatedAt_sorted _

theorem mem_liveGroup {s : Store} {tpId : Nat} {c : Contact} :
    c ∈ liveGroup s tpId ↔
      c ∈ s.contacts ∧ (c.id = tpId ∨ c.linkedId = some tpId) ∧
        c.deletedAt = none := by
  unfold liveGroup
  rw [List.mem_filter]
  simp

theorem mem_finalGroup {s : Store} {tpId : Nat} {c : Contact} :
    c ∈ finalGroup s tpId ↔
      c ∈ s.contacts ∧ (c.id = tpId ∨ c.linkedId = some tpId) ∧
        c.deletedAt = none := by
  unfold finalGroup
  rw [mem_sortByCreatedAt]
  exact mem_liveGroup

theorem finalGroup_sorted (s : Store) (tpId : Nat) :
    (finalGroup s tpId).Pairwise (fun a b => a.createdAt ≤ b.createdAt) :=
  sortByCreatedAt_sorted _

/-! ### The two conditions of the new-information check -/

theorem exactMatchExists_iff {g : List Contact} {e p : String} :
    exactMatchExists g e p = true ↔
      ∃ c ∈ g, c.email = some e ∧ c.phoneNumber = some p := by
  unfold exactMatchExists
  simp [List.any_eq_true]

theorem hasNewInfo_iff {g : List Contact} {e p : String} :
    hasNewInfo g e p = true ↔
      (¬∃ c ∈ g, c.email = some e) ∨ (¬∃ c ∈ g, c.phoneNumber = some p) := by
  unfold hasNewInfo
  simp [List.any_eq_true]

/-! ### Lemmas about the response builder -/

theorem addValue_nonnil {es : List String} {v : Option String}
    (h : es ≠ []) : addValue es v ≠ [] := by
  rcases hnv : normalizeField v with _ | s
  · simpa [addValue, hnv] using h
  · by_cases hs : s ∈ es <;> simp [addValue, hnv, hs, h]

theorem addValue_head {es : List String} (v : Option String)
    (h : es ≠ []) : (addValue es v).head? = es.head? := by
  cases es with
  | nil => exact absurd rfl h
  | cons x xs =>
    rcases hnv : normalizeField v with _ | s
    · simp [addValue, hnv]
    · by_cases hs : s ∈ x :: xs <;> simp [addValue, hnv, hs]

theorem addValue_nodup {es : List String} {v : Option String}
    (h : es.Nodup) : (addValue es v).Nodup := by
  rcases hnv : normalizeField v with _ | s
  · simpa [addValue, hnv] using h
  · by_cases hs : s ∈ es <;>
      simp [addValue, hnv, hs, List.nodup_append, h]

theorem collectEmails_head {es : List String} (cs : List Contact)
    (h : es ≠ []) : (collectEmails es cs).head? = es.head? := by
  induction cs generalizing es with
  | nil => rfl
  | cons c cs ih =>
    show (collectEmails (addValue es c.email) cs).head? = es.head?
    rw [ih (addValue_nonnil h), addValue_head _ h]

theorem collectPhones_head {ps : List String} (cs : List Contact)
    (h : ps ≠ []) : (collectPhones ps cs).head? = ps.head? := by
  induction cs generalizing ps with
  | nil => rfl
  | cons c cs ih =>
    show (collectPhones (addValue ps c.phoneNumber) cs).head? = ps.head?
    rw [ih (addValue_nonnil h), addValue_head _ h]

theorem collectEmails_nodup {es : List String} (cs : List Contact)
    (h : es.Nodup) : (collectEmails es cs).Nodup := by
  induction cs generalizing es with
  | nil => exact h
  | cons c cs ih => exact ih (addValue_nodup h)

theorem collectPhones_nodup {ps : List String} (cs : List Contact)
    (h : ps.Nodup) : (collectPhones ps cs).Nodup := by
  induction cs generalizing ps with
  | nil => exact h
  | cons c cs ih => exact ih (addValue_nodup h)

theorem formatResponse_emails_nodup (primary : Contact)
    (secondaries : List Contact) :
    (formatResponse primary secondaries).emails.Nodup := by
  unfold formatResponse
  apply collectEmails_nodup
  cases normalizeField primary.email <;> simp

theorem formatResponse_phones_nodup (primary : Contact)
    (secondaries : List Contact) :
    (formatResponse primary secondaries).phoneNumbers.Nodup := by
  unfold formatResponse
  apply collectPhones_nodup
  cases normalizeField primary.phoneNumber <;> simp

theorem formatResponse_email_head {primary : Contact}
    (secondaries : List Contact) {v : String}
    (h : normalizeField primary.email = some v) :
    (formatResponse primary secondaries).emails.head? = some v := by
  unfold formatResponse
  rw [h]
  rw [collectEmails_head secondaries (by simp)]
  rfl

theorem formatResponse_phone_head {primary : Contact}
    (secondaries : List Contact) {v : String}
    (h : normalizeField primary.phoneNumber = some v) :
    (formatResponse primary secondaries).phoneNumbers.head? = some v := by
  unfold formatResponse
  rw [h]
  rw [collectPhones_head secondaries (by simp)]
  rfl

theorem formatResponse_ids (primary : Contact) (secondaries : List Contact) :
    (formatResponse primary secondaries).secondaryContactIds =
      secondaries.map (fun c => c.id) := rfl

/-! ### Unfolding equations for the service -/

theorem identifyContact_invalid {s : Store} {email phone : Option String}
    (h : normalizeField email = none ∧ normalizeField phone = none) :
    identifyContact s email phone = .error .invalidInput := by
  unfold identifyContact
  rw [if_pos h]

theorem identifyContact_valid {s : Store} {email phone : Option String}
    (h : ¬(normalizeField email = none ∧ normalizeField phone = none)) :
    identifyContact s email phone =
      identifyMatched s (normalizeField email) (normalizeField phone) := by
  unfold identifyContact
  rw [if_neg h]

theorem identifyMatched_no_match {s : Store} {e p : Option String}
    (h : matchingContacts s e p = []) :
    identifyMatched s e p =
      .ok (formatResponse (s.createContact e p none .primary).1 [],
        (s.createContact e p none .primary).2) := by
  unfold identifyMatched
  rw [h]

theorem identifyMatched_dangling {s : Store} {e p : Option String}
    {m : Contact} {ms : List Contact}
    (hm : matchingContacts s e p = m :: ms)
    (hpcs : primaryContactsOf s (primaryIdsOf (m :: ms)) = []) :
    identifyMatched s e p = .error .runtimeError := by
  unfold identifyMatched
  rw [hm]
  dsimp only
  rw [hpcs]

theorem identifyMatched_resolved {s : Store} {e p : Option String}
    {m tp : Contact} {ms others : List Contact}
    (hm : matchingContacts s e p = m :: ms)
    (hpcs : primaryContactsOf s (primaryIdsOf (m :: ms)) = tp :: others) :
    identifyMatched s e p =
      .ok (formatResponse tp
          ((finalGroup
              (maybeCreateSecondary
                (mergeGroups tp.id (others.map (fun c => c.id)) s)
                tp.id e p) tp.id).filter fun c => decide (c.id ≠ tp.id)),
        maybeCreateSecondary
          (mergeGroups tp.id (others.map (fun c => c.id)) s) tp.id e p) := by
  unfold identifyMatched
  rw [hm]
  dsimp only
  rw [hpcs]

/-! ### Fetched primaries under the invariant -/

theorem lp_secondary_of_ne {l : LinkPrecedence} (h : l ≠ .primary) :
    l = .secondary := by
  cases l
  · exact absurd rfl h
  · rfl

/-- Under the invariant every fetched candidate primary is a live primary
row of the store with a positive id and no outgoing link. -/
theorem fetched_primary_props {s : Store} {e p : Option String} {q : Contact}
    (hinv : s.Inv)
    (hq : q ∈ primaryContactsOf s (primaryIdsOf (matchingContacts s e p))) :
    q ∈ s.contacts ∧ q.deletedAt = none ∧ q.linkPrecedence = .primary ∧
      q.linkedId = none ∧ 0 < q.id := by
  obtain ⟨⟨hnd, hlt, hpos, hnext⟩, hprim, hsec⟩ := hinv
  obtain ⟨hqs, hqid, hqlive⟩ := mem_primaryContactsOf.mp hq
  obtain ⟨m, hm, hcase⟩ := primaryIdsOf_elim hqid
  obtain ⟨hms, hmlive, _⟩ := mem_matchingContacts.mp hm
  rcases hcase with ⟨hmp, hx⟩ | ⟨hmp, hml, _⟩
  · have hqm : q = m := eq_of_mem_of_id_eq hnd hqs hms hx
    subst hqm
    exact ⟨hqs, hqlive, hmp, hprim q hqs hqlive hmp, hpos q hqs⟩
  · obtain ⟨pr, hprs, hprl, hprp, hprlive⟩ :=
      hsec m hms hmlive (lp_secondary_of_ne hmp)
    have hpq : pr.id = q.id := by
      have := hprl.symm.trans hml
      exact Option.some.injEq _ _ ▸ this
    have hqpr : q = pr := eq_of_mem_of_id_eq hnd hqs hprs hpq.symm
    subst hqpr
    exact ⟨hqs, hprlive, hprp, hprim q hqs hprlive hprp, hpos q hqs⟩

/-- The head of the fetched primary list: a live primary row, minimal by
creation time, whose id differs from every losing primary id. -/
theorem truePrimary_props {s : Store} {e p : Option String} {tp : Contact}
    {others : List Contact} (hinv : s.Inv)
    (hpcs : primaryContactsOf s (primaryIdsOf (matchingContacts s e p)) =
      tp :: others) :
    tp ∈ s.contacts ∧ tp.deletedAt = none ∧ tp.linkPrecedence = .primary ∧
      tp.linkedId = none ∧ 0 < tp.id ∧
      tp.id ∉ others.map (fun c => c.id) := by
  have htp := fetched_primary_props hinv
    (q := tp) (by rw [hpcs]; exact List.mem_cons_self _ _)
  have hnd : ((tp :: others).map (fun c => c.id)).Nodup := by
    rw [← hpcs]
    exact primaryContactsOf_nodup_ids hinv.1.1
  rw [List.map_cons, List.nodup_cons] at hnd
  exact ⟨htp.1, htp.2.1, htp.2.2.1, htp.2.2.2.1, htp.2.2.2.2, hnd.1⟩

/-- Every losing primary is a live primary row of the store. -/
theorem others_props {s : Store} {e p : Option String} {tp : Contact}
    {others : List Contact} (hinv : s.Inv)
    (hpcs : primaryContactsOf s (primaryIdsOf (matchingContacts s e p)) =
      tp :: others) :
    ∀ q ∈ others, q ∈ s.contacts ∧ q.deletedAt = none ∧
      q.linkPrecedence = .primary ∧ q.linkedId = none ∧ 0 < q.id := by
  intro q hq
  exact fetched_primary_props hinv
    (q := q) (by rw [hpcs]; exact List.mem_cons_of_mem _ hq)

/-- The merge loop leaves the winning primary row unchanged. -/
theorem tp_untouched {s : Store} {e p : Option String} {tp : Contact}
    {others : List Contact} (hinv : s.Inv)
    (hpcs : primaryContactsOf s (primaryIdsOf (matchingContacts s e p)) =
      tp :: others) :
    demoteSteps tp.id (others.map (fun c => c.id)) tp = tp := by
  obtain ⟨_, _, _, hnone, _, hni⟩ := truePrimary_props hinv hpcs
  exact demoteSteps_untouched hni (fun d _ => by rw [hnone]; exact fun h => Option.noConfusion h)

theorem tp_mem_merged {s : Store} {e p : Option String} {tp : Contact}
    {others : List Contact} (hinv : s.Inv)
    (hpcs : primaryContactsOf s (primaryIdsOf (matchingContacts s e p)) =
      tp :: others) :
    tp ∈ (mergeGroups tp.id (others.map (fun c => c.id)) s).contacts := by
  rw [mergeGroups_contacts]
  have := List.mem_map_of_mem (demoteSteps tp.id (others.map (fun c => c.id)))
    (truePrimary_props hinv hpcs).1
  rwa [tp_untouched hinv hpcs] at this

/-! ### Unfolding equations for the new-information check -/

theorem maybeCreateSecondary_none_left (s : Store) (tpId : Nat)
    (p : Option String) : maybeCreateSecondary s tpId none p = s := rfl

theorem maybeCreateSecondary_none_right (s : Store) (tpId : Nat)
    (e : Option String) : maybeCreateSecondary s tpId e none = s := by
  cases e <;> rfl

theorem maybeCreateSecondary_some (s : Store) (tpId : Nat) (ev pv : String) :
    maybeCreateSecondary s tpId (some ev) (some pv) =
      if hasNewInfo (liveGroup s tpId) ev pv &&
          !exactMatchExists (liveGroup s tpId) ev pv then
        (s.createContact (some ev) (some pv) (some tpId) .secondary).2
      else s := rfl

theorem createContact_fst (s : Store) (e p : Option String)
    (lid : Option Nat) (lp : LinkPrecedence) :
    (s.createContact e p lid lp).1 =
      { id := s.nextId, email := e, phoneNumber := p, linkedId := lid,
        linkPrecedence := lp, createdAt := s.nextId, deletedAt := none } := rfl

theorem createContact_fst_id (s : Store) (e p : Option String)
    (lid : Option Nat) (lp : LinkPrecedence) :
    (s.createContact e p lid lp).1.id = s.nextId := rfl

theorem createContact_snd_contacts (s : Store) (e p : Option String)
    (lid : Option Nat) (lp : LinkPrecedence) :
    ((s.createContact e p lid lp).2).contacts =
      s.contacts ++ [(s.createContact e p lid lp).1] := rfl

theorem createContact_snd_nextId (s : Store) (e p : Option String)
    (lid : Option Nat) (lp : LinkPrecedence) :
    ((s.createContact e p lid lp).2).nextId = s.nextId + 1 := rfl

/-! ### Preservation of the invariants -/

theorem wf_mergeGroups {s : Store} {tpId : Nat} {ds : List Nat}
    (hwf : s.WF) : (mergeGroups tpId ds s).WF := by
  obtain ⟨hnd, hlt, hpos, hnext⟩ := hwf
  have hids : (mergeGroups tpId ds s).contacts.map (fun c => c.id) =
      s.contacts.map (fun c => c.id) := by
    rw [mergeGroups_contacts, List.map_map]
    apply List.map_congr_left
    intro c _
    exact demoteSteps_id tpId ds c
  refine ⟨?_, ?_, ?_, ?_⟩
  · rw [hids]; exact hnd
  · intro c' hc'
    rw [mergeGroups_contacts] at hc'
    obtain ⟨c, hc, rfl⟩ := List.mem_map.mp hc'
    rw [demoteSteps_id, mergeGroups_nextId]
    exact hlt c hc
  · intro c' hc'
    rw [mergeGroups_contacts] at hc'
    obtain ⟨c, hc, rfl⟩ := List.mem_map.mp hc'
    rw [demoteSteps_id]
    exact hpos c hc
  · rw [mergeGroups_nextId]; exact hnext

/-- Creation preserves the invariant, for a fresh primary with no link or a
fresh secondary pointing at a live primary row. -/
theorem inv_createContact {s : Store} (hinv : s.Inv) (e p : Option String)
    (lid : Option Nat) (lp : LinkPrecedence)
    (hok : (lp = .primary ∧ lid = none) ∨
      (lp = .secondary ∧ ∃ tp ∈ s.contacts, lid = some tp.id ∧
        tp.linkPrecedence = .primary ∧ tp.deletedAt = none)) :
    ((s.createContact e p lid lp).2).Inv := by
  obtain ⟨⟨hnd, hlt, hpos, hnext⟩, hprim, hsec⟩ := hinv
  have hfresh : s.nextId ∉ s.contacts.map (fun c => c.id) := by
    intro hmem
    obtain ⟨c, hc, hcid⟩ := List.mem_map.mp hmem
    exact absurd hcid (Nat.ne_of_lt (hlt c hc))
  refine ⟨⟨?_, ?_, ?_, ?_⟩, ?_, ?_⟩
  · rw [createContact_snd_contacts, List.map_append, List.nodup_append]
    exact ⟨hnd, List.nodup_singleton _, by
      intro a ha hb
      simp only [List.map_cons, List.map_nil, List.mem_singleton] at hb
      rw [show (s.createContact e p lid lp).1.id = s.nextId from rfl] at hb
      exact hfresh (hb ▸ ha)⟩
  · intro c hc
    rcases List.mem_append.mp hc with hc | hc
    · exact Nat.lt_trans (hlt c hc) (Nat.lt_succ_self _)
    · rw [List.mem_singleton] at hc
      rw [hc]
      exact Nat.lt_succ_self _
  · intro c hc
    rcases List.mem_append.mp hc with hc | hc
    · exact hpos c hc
    · rw [List.mem_singleton] at hc
      rw [hc]
      exact hnext
  · exact Nat.lt_trans hnext (Nat.lt_succ_self _)
  · intro c hc hlive hlp2
    rcases List.mem_append.mp hc with hc | hc
    · exact hprim c hc hlive hlp2
    · rw [List.mem_singleton] at hc
      subst hc
      rcases hok with ⟨_, hnone⟩ | ⟨hsecnd, _⟩
      · exact hnone
      · rw [show (Contact.mk s.nextId e p lid lp s.nextId
          none).linkPrecedence = lp from rfl, hsecnd] at hlp2
        cases hlp2
  · intro c hc hlive hlp2
    rcases List.mem_append.mp hc with hc | hc
    · obtain ⟨pr, hprs, hprl, hprp, hprlive⟩ := hsec c hc hlive hlp2
      exact ⟨pr, List.mem_append_left _ hprs, hprl, hprp, hprlive⟩
    · rw [List.mem_singleton] at hc
      subst hc
      rcases hok with ⟨hpr, _⟩ | ⟨_, tp, htps, hlid, htpp, htplive⟩
      · rw [show (Contact.mk s.nextId e p lid lp s.nextId
          none).linkPrecedence = lp from rfl, hpr] at hlp2
        cases hlp2
      · exact ⟨tp, List.mem_append_left _ htps, hlid, htpp, htplive⟩

/-- The merge loop preserves the invariant. -/
theorem inv_mergeGroups {s : Store} {e p : Option String} {tp : Contact}
    {others : List Contact} (hinv : s.Inv)
    (hpcs : primaryContactsOf s (primaryIdsOf (matchingContacts s e p)) =
      tp :: others) :
    (mergeGroups tp.id (others.map (fun c => c.id)) s).Inv := by
  obtain ⟨htps, htplive, htplp, htpnone, htppos, htpni⟩ :=
    truePrimary_props hinv hpcs
  have htpmem := tp_mem_merged hinv hpcs
  obtain ⟨hwf, hprim, hsec⟩ := hinv
  refine ⟨wf_mergeGroups hwf, ?_, ?_⟩
  · intro c' hc' hlive' hlp'
    rw [mergeGroups_contacts] at hc'
    obtain ⟨c, hc, rfl⟩ := List.mem_map.mp hc'
    have hni : c.id ∉ others.map (fun c => c.id) := by
      intro hmem
      have hd := (demoteSteps_demoted htpni hmem).1
      rw [hd] at hlp'
      cases hlp'
    have hlpc : c.linkPrecedence = .primary := by
      rw [← @demoteSteps_lp_of_not_mem tp.id (others.map (fun c => c.id))
        c hni]
      exact hlp'
    have hlivec : c.deletedAt = none := by
      rw [← demoteSteps_deletedAt tp.id (others.map (fun c => c.id)) c]
      exact hlive'
    have hnonec : c.linkedId = none := hprim c hc hlivec hlpc
    rw [demoteSteps_untouched hni
      (fun d _ => by rw [hnonec]; exact fun h => Option.noConfusion h)]
    exact hnonec
  · intro c' hc' hlive' hlp'
    rw [mergeGroups_contacts] at hc'
    obtain ⟨c, hc, rfl⟩ := List.mem_map.mp hc'
    have hlivec : c.deletedAt = none := by
      rw [← demoteSteps_deletedAt tp.id (others.map (fun c => c.id)) c]
      exact hlive'
    by_cases hni : c.id ∈ others.map (fun c => c.id)
    · obtain ⟨_, hlink⟩ := demoteSteps_demoted htpni hni
      exact ⟨tp, htpmem, hlink, htplp, htplive⟩
    · have hclp : c.linkPrecedence = .secondary := by
        rw [← @demoteSteps_lp_of_not_mem tp.id (others.map (fun c => c.id))
          c hni]
        exact hlp'
      obtain ⟨pr, hprs, hprl, hprp, hprlive⟩ := hsec c hc hlivec hclp
      have hprnone : pr.linkedId = none := hprim pr hprs hprlive hprp
      by_cases hprni : pr.id ∈ others.map (fun c => c.id)
      · have hlink := demoteSteps_relinked htpni hlivec hprni hprl
        exact ⟨tp, htpmem, hlink, htplp, htplive⟩
      · have huntouched : demoteSteps tp.id (others.map (fun c => c.id)) c = c := by
          apply demoteSteps_untouched hni
          intro d hd he
          rw [hprl] at he
          exact hprni ((Option.some.injEq _ _ ▸ he) ▸ hd)
        have hpruntouched :
            demoteSteps tp.id (others.map (fun c => c.id)) pr = pr := by
          apply demoteSteps_untouched hprni
          intro d _
          rw [hprnone]
          exact fun h => Option.noConfusion h
        have hprmem : pr ∈
            (mergeGroups tp.id (others.map (fun c => c.id)) s).contacts := by
          rw [mergeGroups_contacts]
          have := List.mem_map_of_mem
            (demoteSteps tp.id (others.map (fun c => c.id))) hprs
          rwa [hpruntouched] at this
        rw [huntouched]
        exact ⟨pr, hprmem, hprl, hprp, hprlive⟩

/-- The new-information check preserves the invariant when the target
primary is a live primary row. -/
theorem inv_maybeCreateSecondary {s : Store} {tp : Contact}
    (hinv : s.Inv) (htp : tp ∈ s.contacts)
    (hlp : tp.linkPrecedence = .primary) (hlive : tp.deletedAt = none)
    (e p : Option String) :
    (maybeCreateSecondary s tp.id e p).Inv := by
  cases e with
  | none => exact hinv
  | some ev =>
    cases p with
    | none => exact hinv
    | some pv =>
      rw [maybeCreateSecondary_some]
      split
      · exact inv_createContact hinv _ _ _ _
          (Or.inr ⟨rfl, tp, htp, rfl, hlp, hlive⟩)
      · exact hinv

/-- Every successful Resolve call preserves the invariant. -/
theorem identify_ok_inv {s : Store} {email phone : Option String}
    {r : IdentifyResponse} {s' : Store} (hinv : s.Inv)
    (hok : identifyContact s email phone = .ok (r, s')) : s'.Inv := by
  by_cases hval : normalizeField email = none ∧ normalizeField phone = none
  · rw [identifyContact_invalid hval] at hok
    cases hok
  · rw [identifyContact_valid hval] at hok
    cases hm : matchingContacts s (normalizeField email)
        (normalizeField phone) with
    | nil =>
      rw [identifyMatched_no_match hm] at hok
      injection hok with h
      injection h with h1 h2
      rw [← h2]
      exact inv_createContact hinv _ _ _ _ (Or.inl ⟨rfl, rfl⟩)
    | cons m ms =>
      cases hpcs : primaryContactsOf s (primaryIdsOf (m :: ms)) with
      | nil =>
        rw [identifyMatched_dangling hm hpcs] at hok
        cases hok
      | cons tp others =>
        rw [identifyMatched_resolved hm hpcs] at hok
        injection hok with h
        injection h with h1 h2
        rw [← h2]
        rw [← hm] at hpcs
        obtain ⟨_, htplive, htplp, _, _, _⟩ := truePrimary_props hinv hpcs
        exact inv_maybeCreateSecondary (inv_mergeGroups hinv hpcs)
          (tp_mem_merged hinv hpcs) htplp htplive _ _

/-! ### Further support lemmas -/

theorem lp_ne_primary_of_secondary {l : LinkPrecedence}
    (h : l = .secondary) : l ≠ .primary := by
  rw [h]
  exact fun hc => LinkPrecedence.noConfusion hc

theorem filter_append_singleton {l : List Contact} {f : Contact → Bool}
    {c : Contact} (hl : l.filter f = []) (hc : f c = true) :
    (l ++ [c]).filter f = [c] := by
  rw [List.filter_append, hl, List.nil_append, List.filter_cons, if_pos hc]
  rfl

theorem matchingContacts_none_none (s : Store) :
    matchingContacts s none none = [] := by
  rw [matchingContacts_eq_nil_iff]
  intro c _
  rintro ⟨_, ⟨h, _⟩ | ⟨h, _⟩⟩ <;> exact h rfl

theorem primaryContactsOf_nil (s : Store) : primaryContactsOf s [] = [] := by
  unfold primaryContactsOf
  rw [sortByCreatedAt_eq_nil, List.filter_eq_nil_iff]
  intro c _
  simp

/-- Rows of the store survive the new-information check. -/
theorem maybeCreateSecondary_subset (s : Store) (tpId : Nat)
    (e p : Option String) :
    ∀ c ∈ s.contacts, c ∈ (maybeCreateSecondary s tpId e p).contacts := by
  intro c hc
  cases e with
  | none => exact hc
  | some ev =>
    cases p with
    | none => rw [maybeCreateSecondary_none_right]; exact hc
    | some pv =>
      rw [maybeCreateSecondary_some]
      split
      · rw [createContact_snd_contacts]
        exact List.mem_append_left _ hc
      · exact hc

/-- Rows after the new-information check: an old row or the freshly created
secondary. -/
theorem mem_maybeCreateSecondary {s : Store} {tpId : Nat}
    {e p : Option String} {c : Contact}
    (hc : c ∈ (maybeCreateSecondary s tpId e p).contacts) :
    c ∈ s.contacts ∨
      (c.id = s.nextId ∧ c.linkedId = some tpId ∧
        c.linkPrecedence = .secondary ∧ c.deletedAt = none ∧
        c.email = e ∧ c.phoneNumber = p) := by
  cases e with
  | none => exact Or.inl hc
  | some ev =>
    cases p with
    | none =>
      rw [maybeCreateSecondary_none_right] at hc
      exact Or.inl hc
    | some pv =>
      rw [maybeCreateSecondary_some] at hc
      by_cases hcond : (hasNewInfo (liveGroup s tpId) ev pv &&
          !exactMatchExists (liveGroup s tpId) ev pv) = true
      · rw [if_pos hcond, createContact_snd_contacts] at hc
        rcases List.mem_append.mp hc with h | h
        · exact Or.inl h
        · rw [List.mem_singleton] at h
          subst h
          rw [createContact_fst]
          exact Or.inr ⟨rfl, rfl, rfl, rfl, rfl, rfl⟩
      · rw [if_neg hcond] at hc
        exact Or.inl hc

theorem maybeCreateSecondary_nextId (s : Store) (tpId : Nat)
    (e p : Option String) :
    (maybeCreateSecondary s tpId e p).nextId = s.nextId ∨
    (maybeCreateSecondary s tpId e p).nextId = s.nextId + 1 := by
  cases e with
  | none => exact Or.inl rfl
  | some ev =>
    cases p with
    | none => rw [maybeCreateSecondary_none_right]; exact Or.inl rfl
    | some pv =>
      rw [maybeCreateSecondary_some]
      split
      · exact Or.inr rfl
      · exact Or.inl rfl

/-- After a no-match creation the fresh row is the only row matching the
query. -/
theorem matchingContacts_create {s : Store} {e p : Option String}
    (hval : ¬(e = none ∧ p = none)) (hnil : matchingContacts s e p = []) :
    matchingContacts ((s.createContact e p none .primary).2) e p =
      [(s.createContact e p none .primary).1] := by
  unfold matchingContacts at hnil ⊢
  rw [sortByCreatedAt_eq_nil] at hnil
  rw [createContact_snd_contacts, filter_append_singleton hnil]
  · rfl
  · rw [decide_eq_true_eq]
    refine ⟨rfl, ?_⟩
    rcases not_and_or.mp hval with h | h
    · exact Or.inl ⟨h, rfl⟩
    · exact Or.inr ⟨h, rfl⟩

/-- After a no-match creation the fresh row resolves to itself as the only
candidate primary. -/
theorem primaryContactsOf_create {s : Store} (hwf : s.WF)
    (e p : Option String) :
    primaryContactsOf ((s.createContact e p none .primary).2)
      (primaryIdsOf [(s.createContact e p none .primary).1]) =
      [(s.createContact e p none .primary).1] := by
  have hids : primaryIdsOf [(s.createContact e p none .primary).1] =
      [s.nextId] := rfl
  rw [hids]
  unfold primaryContactsOf
  rw [createContact_snd_contacts, filter_append_singleton]
  · rfl
  · rw [List.filter_eq_nil_iff]
    intro c hc
    rw [decide_eq_true_eq]
    rintro ⟨hmem, _⟩
    rw [List.mem_singleton] at hmem
    exact absurd hmem (Nat.ne_of_lt (hwf.2.1 c hc))
  · rw [decide_eq_true_eq]
    exact ⟨List.mem_singleton.mpr rfl, rfl⟩

/-- After a no-match creation the fresh row forms a singleton group: under
the invariant no pre-existing row can reference the fresh id. -/
theorem liveGroup_create {s : Store} (hinv : s.Inv) (e p : Option String) :
    liveGroup ((s.createContact e p none .primary).2) s.nextId =
      [(s.createContact e p none .primary).1] := by
  obtain ⟨⟨hnd, hlt, hpos, hnext⟩, hprim, hsec⟩ := hinv
  unfold liveGroup
  rw [createContact_snd_contacts, filter_append_singleton]
  · rw [List.filter_eq_nil_iff]
    intro c hc
    rw [decide_eq_true_eq]
    rintro ⟨hid | hlink, hlive⟩
    · exact absurd hid (Nat.ne_of_lt (hlt c hc))
    · cases hclp : c.linkPrecedence with
      | primary =>
        rw [hprim c hc hlive hclp] at hlink
        cases hlink
      | secondary =>
        obtain ⟨pr, hprs, hprl, _, _⟩ := hsec c hc hlive hclp
        rw [hprl] at hlink
        have : pr.id = s.nextId := Option.some.injEq _ _ ▸ hlink
        exact absurd this (Nat.ne_of_lt (hlt pr hprs))
  · rw [decide_eq_true_eq]
    exact ⟨Or.inl rfl, rfl⟩

/-! ### Idempotence of the service -/

/-- Re-running the matched pipeline on the store produced by a resolved
(single-group or merged) call is a no-op returning the same response. -/
theorem identifyMatched_idem_merge {s : Store} {e p : Option String}
    {tp : Contact} {others : List Contact} (hinv : s.Inv)
    (hpcs : primaryContactsOf s (primaryIdsOf (matchingContacts s e p)) =
      tp :: others) :
    identifyMatched
      (maybeCreateSecondary
        (mergeGroups tp.id (others.map (fun c => c.id)) s) tp.id e p) e p =
    .ok (formatResponse tp
        ((finalGroup
            (maybeCreateSecondary
              (mergeGroups tp.id (others.map (fun c => c.id)) s) tp.id e p)
            tp.id).filter fun c => decide (c.id ≠ tp.id)),
      maybeCreateSecondary
        (mergeGroups tp.id (others.map (fun c => c.id)) s) tp.id e p) := by
  obtain ⟨htps, htplive, htplp, htpnone, htppos, htpni⟩ :=
    truePrimary_props hinv hpcs
  have hOth := others_props hinv hpcs
  have htpuntouched := tp_untouched hinv hpcs
  have htpmem2 := tp_mem_merged hinv hpcs
  have hinv2 := inv_mergeGroups hinv hpcs
  obtain ⟨hnd, hlt, hpos, hnext⟩ := hinv.1
  set ds := others.map (fun c => c.id) with hds
  set s2 := mergeGroups tp.id ds s with hs2
  set s1 := maybeCreateSecondary s2 tp.id e p with hs1
  have hinv1 : s1.Inv := by
    rw [hs1]
    exact inv_maybeCreateSecondary hinv2 htpmem2 htplp htplive e p
  have htpmem1 : tp ∈ s1.contacts := by
    rw [hs1]
    exact maybeCreateSecondary_subset _ _ _ _ tp htpmem2
  have htpid0 : tp.id ≠ 0 := htppos.ne'
  have hrowpres : ∀ c0 : Contact,
      (demoteSteps tp.id ds c0).email = c0.email ∧
      (demoteSteps tp.id ds c0).phoneNumber = c0.phoneNumber ∧
      (demoteSteps tp.id ds c0).deletedAt = c0.deletedAt ∧
      (demoteSteps tp.id ds c0).id = c0.id :=
    fun c0 => ⟨demoteSteps_email _ _ _, demoteSteps_phoneNumber _ _ _,
      demoteSteps_deletedAt _ _ _, demoteSteps_id _ _ _⟩
  have hmem1 : ∀ c ∈ s1.contacts,
      (∃ c0 ∈ s.contacts, demoteSteps tp.id ds c0 = c) ∨
      (c.id = s.nextId ∧ c.linkedId = some tp.id ∧
        c.linkPrecedence = .secondary ∧ c.deletedAt = none ∧
        c.email = e ∧ c.phoneNumber = p) := by
    intro c hc
    rw [hs1] at hc
    rcases mem_maybeCreateSecondary hc with hc2 | hnew
    · left
      rw [hs2, mergeGroups_contacts] at hc2
      exact List.mem_map.mp hc2
    · right
      rw [hs2, mergeGroups_nextId] at hnew
      exact hnew
  have hresolve : ∀ c ∈ matchingContacts s1 e p,
      (if c.linkPrecedence = .primary then some c.id
       else truthyId c.linkedId) = some tp.id := by
    intro c hc
    obtain ⟨hcs1, hclive, hccond⟩ := mem_matchingContacts.mp hc
    rcases hmem1 c hcs1 with ⟨c0, hc0, rfl⟩ | ⟨_, hlink, hlp, _, _, _⟩
    · have hc0live : c0.deletedAt = none := by
        rw [← (hrowpres c0).2.2.1]
        exact hclive
      have hc0cond : (e ≠ none ∧ c0.email = e) ∨
          (p ≠ none ∧ c0.phoneNumber = p) := by
        rw [← (hrowpres c0).1, ← (hrowpres c0).2.1]
        exact hccond
      have hc0m : c0 ∈ matchingContacts s e p :=
        mem_matchingContacts.mpr ⟨hc0, hc0live, hc0cond⟩
      cases hc0lp : c0.linkPrecedence with
      | primary =>
        have hc0pcs : c0 ∈ primaryContactsOf s
            (primaryIdsOf (matchingContacts s e p)) :=
          mem_primaryContactsOf.mpr
            ⟨hc0, primaryIdsOf_intro_primary hc0m hc0lp, hc0live⟩
        rw [hpcs] at hc0pcs
        rcases List.mem_cons.mp hc0pcs with rfl | hin
        · rw [htpuntouched, if_pos htplp]
        · have hc0ds : c0.id ∈ ds := by
            rw [hds]
            exact List.mem_map_of_mem _ hin
          obtain ⟨hsec2, hlink2⟩ := demoteSteps_demoted htpni hc0ds
          rw [if_neg (lp_ne_primary_of_secondary hsec2), truthyId_eq_some]
          exact ⟨hlink2, htpid0⟩
      | secondary =>
        obtain ⟨pr, hprs, hprl, hprp, hprlive⟩ :=
          hinv.2.2 c0 hc0 hc0live hc0lp
        have hprpcs : pr ∈ primaryContactsOf s
            (primaryIdsOf (matchingContacts s e p)) :=
          mem_primaryContactsOf.mpr ⟨hprs,
            primaryIdsOf_intro_linked hc0m
              (lp_ne_primary_of_secondary hc0lp) hprl (hpos pr hprs).ne',
            hprlive⟩
        rw [hpcs] at hprpcs
        have hc0notds : c0.id ∉ ds := by
          rw [hds]
          intro hmemd
          obtain ⟨q, hq, hqid⟩ := List.mem_map.mp hmemd
          have hqe : q = c0 := eq_of_mem_of_id_eq hnd (hOth q hq).1 hc0 hqid
          have hqlp := (hOth q hq).2.2.1
          rw [hqe, hc0lp] at hqlp
          cases hqlp
        have hlp1 : (demoteSteps tp.id ds c0).linkPrecedence = .secondary := by
          rw [demoteSteps_lp_of_not_mem hc0notds]
          exact hc0lp
        rcases List.mem_cons.mp hprpcs with heq | hin
        · have hprl2 : c0.linkedId = some tp.id := by
            rw [hprl, heq]
          have huntouch : demoteSteps tp.id ds c0 = c0 := by
            apply demoteSteps_untouched hc0notds
            intro d hd he
            rw [hprl2] at he
            have hpd : tp.id = d := Option.some.injEq _ _ ▸ he
            exact htpni (hpd ▸ hd)
          rw [huntouch, if_neg (lp_ne_primary_of_secondary hc0lp),
            truthyId_eq_some]
          exact ⟨hprl2, htpid0⟩
        · have hprds : pr.id ∈ ds := by
            rw [hds]
            exact List.mem_map_of_mem _ hin
          have hlink2 := demoteSteps_relinked htpni hc0live hprds hprl
          rw [if_neg (lp_ne_primary_of_secondary hlp1), truthyId_eq_some]
          exact ⟨hlink2, htpid0⟩
    · rw [if_neg (lp_ne_primary_of_secondary hlp), truthyId_eq_some]
      exact ⟨hlink, htpid0⟩
  have hmne : matchingContacts s e p ≠ [] := by
    intro hnil
    rw [hnil, show primaryIdsOf [] = [] from rfl, primaryContactsOf_nil]
      at hpcs
    cases hpcs
  obtain ⟨m0, hm0⟩ := List.exists_mem_of_ne_nil _ hmne
  obtain ⟨hm0s, hm0live, hm0cond⟩ := mem_matchingContacts.mp hm0
  have hm0mem1 : demoteSteps tp.id ds m0 ∈ s1.contacts := by
    rw [hs1]
    apply maybeCreateSecondary_subset
    rw [hs2, mergeGroups_contacts]
    exact List.mem_map_of_mem _ hm0s
  have hm0match1 : demoteSteps tp.id ds m0 ∈ matchingContacts s1 e p := by
    rw [mem_matchingContacts]
    refine ⟨hm0mem1, ?_, ?_⟩
    · rw [(hrowpres m0).2.2.1]
      exact hm0live
    · rw [(hrowpres m0).1, (hrowpres m0).2.1]
      exact hm0cond
  have hmne1 : matchingContacts s1 e p ≠ [] := by
    intro hC
    rw [hC] at hm0match1
    cases hm0match1
  cases hm1 : matchingContacts s1 e p with
  | nil => exact absurd hm1 hmne1
  | cons m1 ms1 =>
    have hm1mem : m1 ∈ matchingContacts s1 e p := by
      rw [hm1]
      exact List.mem_cons_self _ _
    have hpcs1 : primaryContactsOf s1 (primaryIdsOf (m1 :: ms1)) = [tp] := by
      apply eq_singleton_of_nodup_of_forall
      · exact List.Nodup.of_map _ (primaryContactsOf_nodup_ids hinv1.1.1)
      · exact mem_primaryContactsOf.mpr ⟨htpmem1,
          mem_primaryIdsOf.mpr ⟨m1, List.mem_cons_self _ _,
            hresolve m1 hm1mem⟩, htplive⟩
      · intro x hx
        obtain ⟨hxs1, hxids, _⟩ := mem_primaryContactsOf.mp hx
        obtain ⟨mm, hmm, hmmif⟩ := mem_primaryIdsOf.mp hxids
        have hmm1 : mm ∈ matchingContacts s1 e p := by
          rw [hm1]
          exact hmm
        have hres := hresolve mm hmm1
        rw [hres] at hmmif
        have hxid : x.id = tp.id :=
          (Option.some.injEq _ _ ▸ hmmif.symm)
        exact eq_of_mem_of_id_eq hinv1.1.1 hxs1 htpmem1 hxid
    rw [identifyMatched_resolved hm1 hpcs1]
    simp only [List.map_nil, mergeGroups_nil]
    have hnocreate : maybeCreateSecondary s1 tp.id e p = s1 := by
      cases e with
      | none => exact maybeCreateSecondary_none_left _ _ _
      | some ev =>
        cases p with
        | none => exact maybeCreateSecondary_none_right _ _ _
        | some pv =>
          by_cases hcond : (hasNewInfo (liveGroup s2 tp.id) ev pv &&
              !exactMatchExists (liveGroup s2 tp.id) ev pv) = true
          · have hs1eq : s1 =
                (s2.createContact (some ev) (some pv) (some tp.id)
                  .secondary).2 := by
              rw [hs1, maybeCreateSecondary_some, if_pos hcond]
            have hexact :
                exactMatchExists (liveGroup s1 tp.id) ev pv = true := by
              rw [exactMatchExists_iff]
              refine ⟨(s2.createContact (some ev) (some pv) (some tp.id)
                .secondary).1, ?_, rfl, rfl⟩
              rw [mem_liveGroup]
              refine ⟨?_, Or.inr rfl, rfl⟩
              rw [hs1eq, createContact_snd_contacts]
              exact List.mem_append_right _ (List.mem_singleton.mpr rfl)
            rw [maybeCreateSecondary_some,
              if_neg (by rw [hexact]; simp)]
          · have hs1eq : s1 = s2 := by
              rw [hs1, maybeCreateSecondary_some, if_neg hcond]
            rw [maybeCreateSecondary_some, hs1eq, if_neg hcond]
    rw [hnocreate]

/-- Re-running the matched pipeline on the store produced by any successful
run, with the same inputs, is a no-op returning the same response. -/
theorem identifyMatched_idempotent {s : Store} {e p : Option String}
    (hinv : s.Inv) (hval : ¬(e = none ∧ p = none))
    {r1 : IdentifyResponse} {s1 : Store}
    (hok : identifyMatched s e p = .ok (r1, s1)) :
    identifyMatched s1 e p = .ok (r1, s1) := by
  cases hm : matchingContacts s e p with
  | nil =>
    rw [identifyMatched_no_match hm] at hok
    injection hok with h
    injection h with h1 h2
    rw [← h2, ← h1]
    rw [identifyMatched_resolved (matchingContacts_create hval hm)
      (primaryContactsOf_create hinv.1 e p)]
    simp only [List.map_nil, mergeGroups_nil]
    have hnocreate :
        maybeCreateSecondary ((s.createContact e p none .primary).2)
          ((s.createContact e p none .primary).1).id e p =
        (s.createContact e p none .primary).2 := by
      cases e with
      | none => exact maybeCreateSecondary_none_left _ _ _
      | some ev =>
        cases p with
        | none => exact maybeCreateSecondary_none_right _ _ _
        | some pv =>
          have hexact : exactMatchExists
              (liveGroup
                ((s.createContact (some ev) (some pv) none .primary).2)
                ((s.createContact (some ev) (some pv) none
                  .primary).1).id) ev pv = true := by
            rw [createContact_fst_id,
              liveGroup_create hinv (some ev) (some pv),
              exactMatchExists_iff]
            exact ⟨_, List.mem_singleton.mpr rfl, rfl, rfl⟩
          rw [maybeCreateSecondary_some, if_neg (by rw [hexact]; simp)]
    rw [hnocreate]
    have hfg : (finalGroup ((s.createContact e p none .primary).2)
        ((s.createContact e p none .primary).1).id).filter
        (fun c => decide
          (c.id ≠ ((s.createContact e p none .primary).1).id)) = [] := by
      unfold finalGroup
      rw [createContact_fst_id, liveGroup_create hinv e p,
        show sortByCreatedAt [(s.createContact e p none .primary).1] =
          [(s.createContact e p none .primary).1] from rfl]
      simp [createContact_fst_id]
    rw [hfg]
  | cons m ms =>
    cases hpcs : primaryContactsOf s (primaryIdsOf (m :: ms)) with
    | nil =>
      rw [identifyMatched_dangling hm hpcs] at hok
      cases hok
    | cons tp others =>
      rw [identifyMatched_resolved hm hpcs] at hok
      injection hok with h
      injection h with h1 h2
      rw [← h2, ← h1]
      rw [← hm] at hpcs
      exact identifyMatched_idem_merge hinv hpcs

/-! ### Remaining small lemmas used by the claim theorems -/

theorem normalizeField_none : normalizeField none = none := rfl

theorem normalizeField_empty : normalizeField (some "") = none := by decide

/-- The matched pipeline never fails with the invalid-input condition: its
only failure mode is the runtime error of an empty fetched primary list. -/
theorem identifyMatched_ne_invalid (s : Store) (e p : Option String) :
    identifyMatched s e p ≠ .error .invalidInput := by
  cases hm : matchingContacts s e p with
  | nil =>
    rw [identifyMatched_no_match hm]
    intro h
    cases h
  | cons m ms =>
    cases hpcs : primaryContactsOf s (primaryIdsOf (m :: ms)) with
    | nil =>
      rw [identifyMatched_dangling hm hpcs]
      intro h
      injection h with h2
      cases h2
    | cons tp others =>
      rw [identifyMatched_resolved hm hpcs]
      intro h
      cases h

theorem runWrites_some {fails : Nat → Bool} :
    ∀ (ops : List WriteOp) (k : Nat) (s s1 : Store),
    runWrites fails k s ops = some s1 → s1 = ops.foldl applyWrite s := by
  intro ops
  induction ops with
  | nil =>
    intro k s s1 h
    injection h with h
    exact h.symm
  | cons op ops ih =>
    intro k s s1 h
    unfold runWrites at h
    split at h
    · cases h
    · exact ih (k + 1) (applyWrite s op) s1 h

theorem foldl_applyWrite_mergeWrites (tpId : Nat) :
    ∀ (ds : List Nat) (s : Store),
    (mergeWrites tpId ds).foldl applyWrite s = mergeGroups tpId ds s := by
  intro ds
  induction ds with
  | nil => intro s; rfl
  | cons d ds ih =>
    intro s
    show (mergeWrites tpId ds).foldl applyWrite
      (applyWrite (applyWrite s (.demote d tpId)) (.relinkAll d tpId)) =
      mergeGroups tpId (d :: ds) s
    rw [ih, mergeGroups_cons]
    rfl

end BitSpeed

deriving instance DecidableEq for Except

namespace BitSpeed

/-! ### Claim theorems -/

/-- C4: the demotion-and-relink write list of a merge is applied
atomically: under every failure oracle, the transactional runner leaves
visible either the fully merged store (when the transaction commits) or
the untouched pre-merge store (when any write fails and the transaction
rolls back) — never a partial merge. -/
theorem c4_merge_transaction_atomic (fails : Nat → Bool) (tpId : Nat)
    (ds : List Nat) (s : Store) :
    runTransaction fails s (mergeWrites tpId ds) =
        (mergeGroups tpId ds s, true) ∨
    runTransaction fails s (mergeWrites tpId ds) = (s, false) := by
  unfold runTransaction
  cases hr : runWrites fails 0 s (mergeWrites tpId ds) with
  | none => exact Or.inr rfl
  | some s1 =>
    left
    rw [runWrites_some _ _ _ _ hr, foldl_applyWrite_mergeWrites]

/-- C6: a Resolve call matching no non-deleted contact creates exactly one
new contact with the supplied truthy values, `linkPrecedence = primary`
and `linkedId = null`, and returns it as a singleton group: the primary id
is the fresh id, the email and phone lists hold exactly the supplied
values (empty when the field was absent), and the secondary id list is
empty. -/
theorem c6_no_match_creates_primary {s : Store} {email phone : Option String}
    (hval : ¬(normalizeField email = none ∧ normalizeField phone = none))
    (hnil : matchingContacts s (normalizeField email)
      (normalizeField phone) = []) :
    identifyContact s email phone =
      .ok ({ primaryContatctId := s.nextId,
             emails := (normalizeField email).toList,
             phoneNumbers := (normalizeField phone).toList,
             secondaryContactIds := [] },
        { contacts := s.contacts ++
            [{ id := s.nextId, email := normalizeField email,
               phoneNumber := normalizeField phone, linkedId := none,
               linkPrecedence := .primary, createdAt := s.nextId,
               deletedAt := none }],
          nextId := s.nextId + 1 }) := by
  rw [identifyContact_valid hval, identifyMatched_no_match hnil]
  have h1 : formatResponse
      (Store.createContact s (normalizeField email)
        (normalizeField phone) none .primary).1 [] =
      { primaryContatctId := s.nextId,
        emails := (normalizeField email).toList,
        phoneNumbers := (normalizeField phone).toList,
        secondaryContactIds := [] } := by
    simp [formatResponse, createContact_fst, collectEmails, collectPhones,
      normalizeField_idem]
  rw [h1]
  rfl

/-- Witness for C6 at the spec example input against the empty store. -/
theorem c6_witness :
    identifyContact ⟨[], 1⟩ (some "lorraine@x.edu") (some "123456") =
      .ok ({ primaryContatctId := 1, emails := ["lorraine@x.edu"],
             phoneNumbers := ["123456"], secondaryContactIds := [] },
        { contacts := [{ id := 1, email := some "lorraine@x.edu",
                         phoneNumber := some "123456", linkedId := none,
                         linkPrecedence := .primary, createdAt := 1,
                         deletedAt := none }], nextId := 2 }) :=
  (c6_no_match_creates_primary (by decide) (by decide)).trans (by decide)

/-- C8 counterexample: the email argument is supplied (a non-null empty
string) yet the call still fails with InvalidInput, refuting the claim
that whenever at least one argument is supplied the call does not fail
with InvalidInput. -/
theorem c8_counterexample :
    identifyContact ⟨[], 1⟩ (some "") none = .error .invalidInput ∧
    (some "" : Option String) ≠ none := ⟨by decide, by decide⟩

/-- C8 (amended): Resolve fails with InvalidInput exactly when both
arguments are absent or empty strings (not truthy); when at least one
truthy argument is supplied, the call does not fail with InvalidInput and
proceeds to the matching pipeline on the truthy values. -/
theorem c8_invalid_input_iff (s : Store) (email phone : Option String) :
    (identifyContact s email phone = .error .invalidInput ↔
      (normalizeField email = none ∧ normalizeField phone = none)) ∧
    (¬(normalizeField email = none ∧ normalizeField phone = none) →
      identifyContact s email phone =
        identifyMatched s (normalizeField email) (normalizeField phone)) := by
  constructor
  · constructor
    · intro h
      by_contra hval
      rw [identifyContact_valid hval] at h
      exact identifyMatched_ne_invalid s _ _ h
    · exact identifyContact_invalid
  · exact identifyContact_valid

/-- Witness for the amended C8: one truthy argument makes the call proceed
to matching. -/
theorem c8_witness :
    identifyContact (⟨[], 1⟩ : Store) (some "x@y") none =
      identifyMatched ⟨[], 1⟩ (normalizeField (some "x@y"))
        (normalizeField none) ∧
    ¬(normalizeField (some "x@y") = none ∧
      normalizeField (none : Option String) = none) :=
  ⟨(c8_invalid_input_iff ⟨[], 1⟩ (some "x@y") none).2 (by decide), by decide⟩

/-- C9: a supplied empty-string field behaves exactly like an absent field
everywhere in the service — the whole call is extensionally equal to the
call with the field absent (so it is excluded from matching and stored as
null on creation), and a call with both fields empty fails with the same
InvalidInput condition as a call with both fields missing. -/
theorem c9_empty_string_as_absent (s : Store) (email phone : Option String) :
    identifyContact s (some "") phone = identifyContact s none phone ∧
    identifyContact s email (some "") = identifyContact s email none ∧
    identifyContact s (some "") (some "") = .error .invalidInput := by
  refine ⟨?_, ?_, ?_⟩
  · unfold identifyContact
    rw [normalizeField_empty, normalizeField_none]
  · unfold identifyContact
    rw [normalizeField_empty, normalizeField_none]
  · exact identifyContact_invalid ⟨normalizeField_empty, normalizeField_empty⟩

/-- A store with a single primary contact, used by witnesses. -/
def wcPrimary : Contact :=
  { id := 1, email := some "a@b", phoneNumber := some "1", linkedId := none,
    linkPrecedence := .primary, createdAt := 1, deletedAt := none }

/-- Witness store holding `wcPrimary` only. -/
def wStore1 : Store := { contacts := [wcPrimary], nextId := 2 }

/-- C10: a Resolve call supplying only one field whose matches resolve to a
single primary performs no writes: the returned store is the input store
itself. -/
theorem c10_single_group_lookup_no_writes {s : Store}
    {email phone : Option String} {m tp : Contact} {ms : List Contact}
    (hone : (normalizeField email = none ∧ normalizeField phone ≠ none) ∨
      (normalizeField email ≠ none ∧ normalizeField phone = none))
    (hm : matchingContacts s (normalizeField email)
      (normalizeField phone) = m :: ms)
    (hpcs : primaryContactsOf s (primaryIdsOf (m :: ms)) = [tp]) :
    identifyContact s email phone =
      .ok (formatResponse tp ((finalGroup s tp.id).filter fun c =>
        decide (c.id ≠ tp.id)), s) := by
  have hval : ¬(normalizeField email = none ∧
      normalizeField phone = none) := by
    rintro ⟨h1, h2⟩
    rcases hone with ⟨_, hb⟩ | ⟨ha, _⟩
    · exact hb h2
    · exact ha h1
  rw [identifyContact_valid hval, identifyMatched_resolved hm hpcs]
  simp only [List.map_nil, mergeGroups_nil]
  rcases hone with ⟨h1, _⟩ | ⟨_, h2⟩
  · rw [h1]
    rfl
  · rw [h2, maybeCreateSecondary_none_right]

/-- Witness for C10: an email-only lookup against a one-contact store. -/
theorem c10_witness :
    identifyContact wStore1 (some "a@b") none =
      .ok (formatResponse wcPrimary ((finalGroup wStore1 wcPrimary.id).filter
        fun c => decide (c.id ≠ wcPrimary.id)), wStore1) :=
  c10_single_group_lookup_no_writes (Or.inr ⟨by decide, by decide⟩)
    (show matchingContacts wStore1 (normalizeField (some "a@b"))
      (normalizeField none) = wcPrimary :: [] by decide)
    (show primaryContactsOf wStore1 (primaryIdsOf (wcPrimary :: [])) =
      [wcPrimary] by decide)

/-- The creation trigger of the new-information check, as a proposition
over the resolved group: no row carries exactly the supplied pair, and at
least one supplied value is unknown to the group. -/
def CreationCondition (g : List Contact) (ev pv : String) : Prop :=
  (¬∃ c ∈ g, c.email = some ev ∧ c.phoneNumber = some pv) ∧
  ((¬∃ c ∈ g, c.email = some ev) ∨ (¬∃ c ∈ g, c.phoneNumber = some pv))

theorem creation_condition_iff (g : List Contact) (ev pv : String) :
    (hasNewInfo g ev pv && !exactMatchExists g ev pv) = true ↔
      CreationCondition g ev pv := by
  rw [Bool.and_eq_true, Bool.not_eq_true']
  unfold CreationCondition
  rw [hasNewInfo_iff]
  constructor
  · rintro ⟨hn, hex⟩
    refine ⟨?_, hn⟩
    intro hexst
    rw [← exactMatchExists_iff] at hexst
    rw [hexst] at hex
    cases hex
  · rintro ⟨hne, hn⟩
    refine ⟨hn, ?_⟩
    cases hb : exactMatchExists g ev pv
    · rfl
    · exact absurd (exactMatchExists_iff.mp hb) hne

/-- C2: with both fields supplied and at least one match, a new secondary
with linkedId = truePrimary.id is created exactly when the post-merge
group has no row with exactly the supplied (email, phone) pair and at
least one of the two supplied values is absent from the group's known
emails / phones; with only one field supplied, the matched path never
creates a row. -/
theorem c2_secondary_creation_iff :
    (∀ (s : Store) (email phone : Option String) (ev pv : String)
        (m tp : Contact) (ms others : List Contact)
        (r : IdentifyResponse) (s' : Store),
      normalizeField email = some ev → normalizeField phone = some pv →
      matchingContacts s (normalizeField email)
        (normalizeField phone) = m :: ms →
      primaryContactsOf s (primaryIdsOf (m :: ms)) = tp :: others →
      identifyContact s email phone = .ok (r, s') →
      ((s'.contacts =
          (mergeGroups tp.id (others.map (fun c => c.id)) s).contacts ++
          [{ id := s.nextId, email := some ev, phoneNumber := some pv,
             linkedId := some tp.id, linkPrecedence := .secondary,
             createdAt := s.nextId, deletedAt := none }] ↔
        CreationCondition
          (liveGroup (mergeGroups tp.id (others.map (fun c => c.id)) s)
            tp.id) ev pv) ∧
       (¬CreationCondition
          (liveGroup (mergeGroups tp.id (others.map (fun c => c.id)) s)
            tp.id) ev pv →
        s' = mergeGroups tp.id (others.map (fun c => c.id)) s))) ∧
    (∀ (s : Store) (email phone : Option String) (m tp : Contact)
        (ms others : List Contact) (r : IdentifyResponse) (s' : Store),
      (normalizeField email = none ∨ normalizeField phone = none) →
      matchingContacts s (normalizeField email)
        (normalizeField phone) = m :: ms →
      primaryContactsOf s (primaryIdsOf (m :: ms)) = tp :: others →
      identifyContact s email phone = .ok (r, s') →
      s' = mergeGroups tp.id (others.map (fun c => c.id)) s) := by
  constructor
  · intro s email phone ev pv m tp ms others r s' he hp hm hpcs hok
    have hval : ¬(normalizeField email = none ∧
        normalizeField phone = none) := by
      rintro ⟨h1, _⟩
      rw [he] at h1
      cases h1
    rw [identifyContact_valid hval, identifyMatched_resolved hm hpcs] at hok
    injection hok with h
    injection h with h1 h2
    rw [he, hp, maybeCreateSecondary_some] at h2
    by_cases hcond : (hasNewInfo
        (liveGroup (mergeGroups tp.id (others.map (fun c => c.id)) s)
          tp.id) ev pv &&
        !exactMatchExists
          (liveGroup (mergeGroups tp.id (others.map (fun c => c.id)) s)
            tp.id) ev pv) = true
    · rw [if_pos hcond] at h2
      refine ⟨⟨fun _ => (creation_condition_iff _ _ _).mp hcond,
        fun _ => ?_⟩,
        fun hnc => absurd ((creation_condition_iff _ _ _).mp hcond) hnc⟩
      rw [← h2, createContact_snd_contacts, createContact_fst,
        mergeGroups_nextId]
    · rw [if_neg hcond] at h2
      refine ⟨⟨fun hconteq => ?_, fun hprop => ?_⟩, fun _ => h2.symm⟩
      · rw [← h2] at hconteq
        have hlen := congrArg List.length hconteq
        rw [List.length_append] at hlen
        simp at hlen
      · exact absurd ((creation_condition_iff _ _ _).mpr hprop) hcond
  · intro s email phone m tp ms others r s' hone hm hpcs hok
    have hval : ¬(normalizeField email = none ∧
        normalizeField phone = none) := by
      rintro ⟨h1, h2⟩
      rw [h1, h2, matchingContacts_none_none] at hm
      cases hm
    rw [identifyContact_valid hval, identifyMatched_resolved hm hpcs] at hok
    injection hok with h
    injection h with h1 h2
    rcases hone with h1e | h2p
    · rw [h1e, maybeCreateSecondary_none_left] at h2
      exact h2.symm
    · rw [h2p, maybeCreateSecondary_none_right] at h2
      exact h2.symm

/-- The secondary row created by the C2 witness call. -/
def wcNew : Contact :=
  { id := 2, email := some "new@b", phoneNumber := some "1",
    linkedId := some 1, linkPrecedence := .secondary, createdAt := 2,
    deletedAt := none }

/-- The store after the C2 witness call. -/
def wStore1c : Store := { contacts := [wcPrimary, wcNew], nextId := 3 }

/-- The response of the C2 witness call. -/
def wr2 : IdentifyResponse :=
  { primaryContatctId := 1, emails := ["a@b", "new@b"],
    phoneNumbers := ["1"], secondaryContactIds := [2] }

/-- Witness for C2: supplying a new email with a known phone creates a
secondary in the (single-primary) group. -/
theorem c2_witness :
    ((({ contacts := [wcPrimary, wcNew], nextId := 3 } : Store).contacts =
        (mergeGroups wcPrimary.id (([] : List Contact).map
          (fun c => c.id)) wStore1).contacts ++
        [{ id := wStore1.nextId, email := some "new@b",
           phoneNumber := some "1", linkedId := some wcPrimary.id,
           linkPrecedence := .secondary, createdAt := wStore1.nextId,
           deletedAt := none }] ↔
      CreationCondition
        (liveGroup (mergeGroups wcPrimary.id (([] : List Contact).map
          (fun c => c.id)) wStore1) wcPrimary.id) "new@b" "1") ∧
     (¬CreationCondition
        (liveGroup (mergeGroups wcPrimary.id (([] : List Contact).map
          (fun c => c.id)) wStore1) wcPrimary.id) "new@b" "1" →
      ({ contacts := [wcPrimary, wcNew], nextId := 3 } : Store) =
        mergeGroups wcPrimary.id (([] : List Contact).map
          (fun c => c.id)) wStore1)) :=
  c2_secondary_creation_iff.1 wStore1 (some "new@b") (some "1") "new@b" "1"
    wcPrimary wcPrimary [] [] wr2 wStore1c
    (by decide) (by decide) (by decide) (by decide) (by decide)

/-- C3: Resolve is idempotent at the data level: a second call with the
same (email, phone) pair, with no interleaved operations, returns the
identical consolidated identity and creates no rows — the store after the
second call is the store after the first. -/
theorem c3_resolve_idempotent {s : Store} {email phone : Option String}
    {r1 : IdentifyResponse} {s1 : Store} (hinv : s.Inv)
    (hok : identifyContact s email phone = .ok (r1, s1)) :
    identifyContact s1 email phone = .ok (r1, s1) := by
  by_cases hval : normalizeField email = none ∧ normalizeField phone = none
  · rw [identifyContact_invalid hval] at hok
    cases hok
  · rw [identifyContact_valid hval] at hok
    rw [identifyContact_valid hval]
    exact identifyMatched_idempotent hinv hval hok

/-- Witness for C3: the second identical call after a creating call
returns the same response and leaves the store unchanged. -/
theorem c3_witness :
    identifyContact wStore1 (some "a@b") (some "1") =
      .ok ({ primaryContatctId := 1, emails := ["a@b"],
             phoneNumbers := ["1"], secondaryContactIds := [] },
        wStore1) :=
  c3_resolve_idempotent
    (show Store.Inv { contacts := [], nextId := 1 } by decide)
    (show identifyContact { contacts := [], nextId := 1 }
        (some "a@b") (some "1") =
      .ok ({ primaryContatctId := 1, emails := ["a@b"],
             phoneNumbers := ["1"], secondaryContactIds := [] },
        wStore1) by decide)

/-- C5: after any sequence of successful Resolve calls from a store
satisfying the data-model invariants, the hierarchy stays flat: no live
contact's linkedId points at a contact whose own linkedId is non-null,
and every live secondary has a non-null linkedId pointing at a live
primary whose linkedId is null. -/
theorem c5_flat_hierarchy_invariant {s t : Store} (hinv : s.Inv)
    (hreach : ReachableFrom s t) :
    (∀ c ∈ t.contacts, c.deletedAt = none → ∀ d ∈ t.contacts,
      c.linkedId = some d.id → d.linkedId = none) ∧
    (∀ c ∈ t.contacts, c.deletedAt = none →
      c.linkPrecedence = .secondary →
      ∃ pr ∈ t.contacts, c.linkedId = some pr.id ∧
        pr.linkPrecedence = .primary ∧ pr.deletedAt = none ∧
        pr.linkedId = none) := by
  have hit : t.Inv := by
    induction hreach with
    | refl => exact hinv
    | step t2 u email phone r hr hok ih => exact identify_ok_inv ih hok
  obtain ⟨⟨hnd, _, _, _⟩, hprim, hsec⟩ := hit
  constructor
  · intro c hc hlive d hd hlink
    cases hclp : c.linkPrecedence with
    | primary =>
      rw [hprim c hc hlive hclp] at hlink
      cases hlink
    | secondary =>
      obtain ⟨pr, hprs, hprl, hprp, hprlive⟩ := hsec c hc hlive hclp
      have hdpr : d = pr := by
        apply eq_of_mem_of_id_eq hnd hd hprs
        rw [hprl] at hlink
        exact (Option.some.injEq _ _ ▸ hlink).symm
      rw [hdpr]
      exact hprim pr hprs hprlive hprp
  · intro c hc hlive hclp
    obtain ⟨pr, hprs, hprl, hprp, hprlive⟩ := hsec c hc hlive hclp
    exact ⟨pr, hprs, hprl, hprp, hprlive, hprim pr hprs hprlive hprp⟩

/-- Witness for C5: one successful call from the empty store. -/
theorem c5_witness :
    (∀ c ∈ wStore1.contacts, c.deletedAt = none →
      ∀ d ∈ wStore1.contacts,
      c.linkedId = some d.id → d.linkedId = none) ∧
    (∀ c ∈ wStore1.contacts, c.deletedAt = none →
      c.linkPrecedence = .secondary →
      ∃ pr ∈ wStore1.contacts,
        c.linkedId = some pr.id ∧ pr.linkPrecedence = .primary ∧
        pr.deletedAt = none ∧ pr.linkedId = none) :=
  c5_flat_hierarchy_invariant
    (show Store.Inv { contacts := [], nextId := 1 } by decide)
    (ReachableFrom.step { contacts := [], nextId := 1 } wStore1
      (some "a@b") (some "1")
      { primaryContatctId := 1, emails := ["a@b"], phoneNumbers := ["1"],
        secondaryContactIds := [] }
      ReachableFrom.refl (by decide))

/-- C1: when the matched contacts resolve to more than one fetched
primary, the head of the fetched list — a primary with minimal createdAt —
is the true primary; in the final store every other fetched primary row
has linkPrecedence secondary and linkedId = truePrimary.id, and every
live row that pointed at a demoted primary now points at the true
primary. -/
theorem c1_merge_demotes_and_relinks {s : Store}
    {email phone : Option String} {r : IdentifyResponse} {s' : Store}
    {tp : Contact} {others : List Contact} (hwf : s.WF)
    (hpcs : primaryContactsOf s (primaryIdsOf (matchingContacts s
      (normalizeField email) (normalizeField phone))) = tp :: others)
    (_hne : others ≠ [])
    (hok : identifyContact s email phone = .ok (r, s')) :
    (∀ q ∈ tp :: others, tp.createdAt ≤ q.createdAt) ∧
    (∀ q ∈ others, ∀ c2 ∈ s'.contacts, c2.id = q.id →
      c2.linkPrecedence = .secondary ∧ c2.linkedId = some tp.id) ∧
    (∀ c ∈ s.contacts, c.deletedAt = none → ∀ q ∈ others,
      c.linkedId = some q.id → ∀ c2 ∈ s'.contacts, c2.id = c.id →
      c2.linkedId = some tp.id) := by
  obtain ⟨hnd, hlt, hpos, hnext⟩ := hwf
  have hsorted := primaryContactsOf_sorted s (primaryIdsOf
    (matchingContacts s (normalizeField email) (normalizeField phone)))
  rw [hpcs] at hsorted
  have hmin := head_min_of_sorted hsorted
  cases hm : matchingContacts s (normalizeField email)
      (normalizeField phone) with
  | nil =>
    rw [hm, show primaryIdsOf [] = [] from rfl, primaryContactsOf_nil]
      at hpcs
    cases hpcs
  | cons m ms =>
    rw [hm] at hpcs
    have hval : ¬(normalizeField email = none ∧
        normalizeField phone = none) := by
      rintro ⟨h1, h2⟩
      rw [h1, h2, matchingContacts_none_none] at hm
      cases hm
    rw [identifyContact_valid hval, identifyMatched_resolved hm hpcs] at hok
    injection hok with h
    injection h with h1 h2
    have hpcnd := @primaryContactsOf_nodup_ids s (primaryIdsOf (m :: ms)) hnd
    rw [hpcs, List.map_cons, List.nodup_cons] at hpcnd
    have htpni : tp.id ∉ others.map (fun c => c.id) := hpcnd.1
    refine ⟨hmin, ?_, ?_⟩
    · intro q hq c2 hc2 hc2id
      have hqs : q ∈ s.contacts := (mem_primaryContactsOf.mp
        (by rw [hpcs]; exact List.mem_cons_of_mem _ hq)).1
      have hqid : q.id ∈ others.map (fun c => c.id) :=
        List.mem_map_of_mem _ hq
      rw [← h2] at hc2
      rcases mem_maybeCreateSecondary hc2 with hc3 | ⟨hid, _, _, _, _, _⟩
      · rw [mergeGroups_contacts] at hc3
        obtain ⟨c0, hc0, rfl⟩ := List.mem_map.mp hc3
        rw [demoteSteps_id] at hc2id
        have hc0q : c0 = q := eq_of_mem_of_id_eq hnd hc0 hqs hc2id
        subst hc0q
        exact ⟨(demoteSteps_demoted htpni hqid).1,
          (demoteSteps_demoted htpni hqid).2⟩
      · rw [mergeGroups_nextId] at hid
        rw [hc2id] at hid
        exact absurd hid (Nat.ne_of_lt (hlt q hqs))
    · intro c hc hlive q hq hlink c2 hc2 hc2id
      have hqid : q.id ∈ others.map (fun c => c.id) :=
        List.mem_map_of_mem _ hq
      rw [← h2] at hc2
      rcases mem_maybeCreateSecondary hc2 with hc3 | ⟨hid, _, _, _, _, _⟩
      · rw [mergeGroups_contacts] at hc3
        obtain ⟨c0, hc0, rfl⟩ := List.mem_map.mp hc3
        rw [demoteSteps_id] at hc2id
        have hc0c : c0 = c := eq_of_mem_of_id_eq hnd hc0 hc hc2id
        subst hc0c
        exact demoteSteps_relinked htpni hlive hqid hlink
      · rw [mergeGroups_nextId] at hid
        rw [hc2id] at hid
        exact absurd hid (Nat.ne_of_lt (hlt c hc))

/-- An older primary used by the merge witness. -/
def wcA : Contact :=
  { id := 1, email := some "a@x", phoneNumber := some "111",
    linkedId := none, linkPrecedence := .primary, createdAt := 1,
    deletedAt := none }

/-- A younger primary used by the merge witness. -/
def wcB : Contact :=
  { id := 2, email := some "b@x", phoneNumber := some "222",
    linkedId := none, linkPrecedence := .primary, createdAt := 2,
    deletedAt := none }

/-- Witness store holding the two independent primaries. -/
def wStore2 : Store := { contacts := [wcA, wcB], nextId := 3 }

/-- The expected store after merging `wcB` into the group of `wcA`. -/
def wStore2m : Store :=
  { contacts := [wcA,
      { id := 2, email := some "b@x", phoneNumber := some "222",
        linkedId := some 1, linkPrecedence := .secondary, createdAt := 2,
        deletedAt := none }], nextId := 3 }

/-- Witness for C1: a request supplying the older primary's email and the
younger primary's phone merges the two groups. -/
theorem c1_witness :
    (∀ q ∈ wcA :: [wcB], wcA.createdAt ≤ q.createdAt) ∧
    (∀ q ∈ [wcB], ∀ c2 ∈ wStore2m.contacts, c2.id = q.id →
      c2.linkPrecedence = .secondary ∧ c2.linkedId = some wcA.id) ∧
    (∀ c ∈ wStore2.contacts, c.deletedAt = none → ∀ q ∈ [wcB],
      c.linkedId = some q.id → ∀ c2 ∈ wStore2m.contacts, c2.id = c.id →
      c2.linkedId = some wcA.id) :=
  c1_merge_demotes_and_relinks
    (show Store.WF wStore2 by decide)
    (show primaryContactsOf wStore2 (primaryIdsOf (matchingContacts wStore2
      (normalizeField (some "a@x")) (normalizeField (some "222")))) =
      wcA :: [wcB] by decide)
    (by decide)
    (show identifyContact wStore2 (some "a@x") (some "222") =
      .ok ({ primaryContatctId := 1, emails := ["a@x", "b@x"],
             phoneNumbers := ["111", "222"], secondaryContactIds := [2] },
        wStore2m) by decide)

/-- After a no-match creation the final group minus the fresh primary is
empty. -/
theorem finalGroup_create_filter {s : Store} (hinv : s.Inv)
    (e p : Option String) :
    (finalGroup ((s.createContact e p none .primary).2)
      ((s.createContact e p none .primary).1).id).filter
      (fun c => decide
        (c.id ≠ ((s.createContact e p none .primary).1).id)) = [] := by
  unfold finalGroup
  rw [createContact_fst_id, liveGroup_create hinv e p,
    show sortByCreatedAt [(s.createContact e p none .primary).1] =
      [(s.createContact e p none .primary).1] from rfl]
  simp [createContact_fst_id]

/-- The observable shape of a formatted response over the sorted live
group minus the primary. -/
theorem c7_aux (tp : Contact) (s' : Store) {r : IdentifyResponse}
    (hr : r = formatResponse tp ((finalGroup s' tp.id).filter fun c =>
      decide (c.id ≠ tp.id))) :
    r.primaryContatctId = tp.id ∧
    (∀ v, normalizeField tp.email = some v → r.emails.head? = some v) ∧
    (∀ v, normalizeField tp.phoneNumber = some v →
      r.phoneNumbers.head? = some v) ∧
    r.emails.Nodup ∧ r.phoneNumbers.Nodup ∧
    r.secondaryContactIds = ((finalGroup s' tp.id).filter fun c =>
      decide (c.id ≠ tp.id)).map (fun c => c.id) ∧
    ((finalGroup s' tp.id).filter fun c => decide (c.id ≠ tp.id)).Pairwise
      (fun a b => a.createdAt ≤ b.createdAt) ∧
    (∀ c, c ∈ ((finalGroup s' tp.id).filter fun c =>
        decide (c.id ≠ tp.id)) ↔
      (c ∈ s'.contacts ∧ (c.id = tp.id ∨ c.linkedId = some tp.id) ∧
        c.deletedAt = none ∧ c.id ≠ tp.id)) := by
  subst hr
  refine ⟨rfl, ?_, ?_, formatResponse_emails_nodup _ _,
    formatResponse_phones_nodup _ _, formatResponse_ids _ _, ?_, ?_⟩
  · intro v hv
    exact formatResponse_email_head _ hv
  · intro v hv
    exact formatResponse_phone_head _ hv
  · exact (finalGroup_sorted s' tp.id).sublist (List.filter_sublist _)
  · intro c
    rw [List.mem_filter, mem_finalGroup, decide_eq_true_eq]
    tauto

/-- C7: every successful Resolve returns exactly the formatted view of the
true primary and the createdAt-sorted live group minus that primary: the
primary id, the primary's truthy email and phone leading their
deduplicated lists, and the group's non-primary ids in ascending creation
order (the empty list when there are no secondaries). -/
theorem c7_response_shape {s : Store} {email phone : Option String}
    {r : IdentifyResponse} {s' : Store} (hinv : s.Inv)
    (hok : identifyContact s email phone = .ok (r, s')) :
    ∃ tp ∈ s'.contacts,
      r = formatResponse tp ((finalGroup s' tp.id).filter fun c =>
        decide (c.id ≠ tp.id)) ∧
      r.primaryContatctId = tp.id ∧
      (∀ v, normalizeField tp.email = some v →
        r.emails.head? = some v) ∧
      (∀ v, normalizeField tp.phoneNumber = some v →
        r.phoneNumbers.head? = some v) ∧
      r.emails.Nodup ∧ r.phoneNumbers.Nodup ∧
      r.secondaryContactIds = ((finalGroup s' tp.id).filter fun c =>
        decide (c.id ≠ tp.id)).map (fun c => c.id) ∧
      ((finalGroup s' tp.id).filter fun c =>
        decide (c.id ≠ tp.id)).Pairwise
        (fun a b => a.createdAt ≤ b.createdAt) ∧
      (∀ c, c ∈ ((finalGroup s' tp.id).filter fun c =>
          decide (c.id ≠ tp.id)) ↔
        (c ∈ s'.contacts ∧ (c.id = tp.id ∨ c.linkedId = some tp.id) ∧
          c.deletedAt = none ∧ c.id ≠ tp.id)) := by
  by_cases hval : normalizeField email = none ∧ normalizeField phone = none
  · rw [identifyContact_invalid hval] at hok
    cases hok
  · rw [identifyContact_valid hval] at hok
    cases hm : matchingContacts s (normalizeField email)
        (normalizeField phone) with
    | nil =>
      rw [identifyMatched_no_match hm] at hok
      injection hok with h
      injection h with h1 h2
      have hfilter : (finalGroup s'
          ((s.createContact (normalizeField email)
            (normalizeField phone) none .primary).1).id).filter
          (fun c => decide (c.id ≠ ((s.createContact (normalizeField email)
            (normalizeField phone) none .primary).1).id)) = [] := by
        rw [← h2]
        exact finalGroup_create_filter hinv _ _
      have hr : r = formatResponse
          ((s.createContact (normalizeField email)
            (normalizeField phone) none .primary).1)
          ((finalGroup s' ((s.createContact (normalizeField email)
            (normalizeField phone) none .primary).1).id).filter
            (fun c => decide (c.id ≠ ((s.createContact
              (normalizeField email) (normalizeField phone) none
              .primary).1).id))) := by
        rw [hfilter, ← h1]
      refine ⟨(s.createContact (normalizeField email)
        (normalizeField phone) none .primary).1, ?_, hr, c7_aux _ _ hr⟩
      rw [← h2, createContact_snd_contacts]
      exact List.mem_append_right _ (List.mem_singleton.mpr rfl)
    | cons m ms =>
      cases hpcs : primaryContactsOf s (primaryIdsOf (m :: ms)) with
      | nil =>
        rw [identifyMatched_dangling hm hpcs] at hok
        cases hok
      | cons tp others =>
        rw [identifyMatched_resolved hm hpcs] at hok
        injection hok with h
        injection h with h1 h2
        rw [← hm] at hpcs
        have hr : r = formatResponse tp ((finalGroup s' tp.id).filter
            fun c => decide (c.id ≠ tp.id)) := by
          rw [← h1, h2]
        refine ⟨tp, ?_, hr, c7_aux _ _ hr⟩
        rw [← h2]
        exact maybeCreateSecondary_subset _ _ _ _ tp (tp_mem_merged hinv hpcs)

/-- Witness for C7: the response of a creating call against the empty
store has the shape of the claim. -/
theorem c7_witness :
    ∃ tp ∈ wStore1.contacts,
      ({ primaryContatctId := 1, emails := ["a@b"], phoneNumbers := ["1"],
         secondaryContactIds := [] } : IdentifyResponse) =
        formatResponse tp ((finalGroup wStore1 tp.id).filter fun c =>
          decide (c.id ≠ tp.id)) ∧
      ({ primaryContatctId := 1, emails := ["a@b"], phoneNumbers := ["1"],
         secondaryContactIds := [] } : IdentifyResponse).primaryContatctId
        = tp.id ∧
      (∀ v, normalizeField tp.email = some v →
        (["a@b"] : List String).head? = some v) ∧
      (∀ v, normalizeField tp.phoneNumber = some v →
        (["1"] : List String).head? = some v) ∧
      (["a@b"] : List String).Nodup ∧ (["1"] : List String).Nodup ∧
      ([] : List Nat) = ((finalGroup wStore1 tp.id).filter fun c =>
        decide (c.id ≠ tp.id)).map (fun c => c.id) ∧
      ((finalGroup wStore1 tp.id).filter fun c =>
        decide (c.id ≠ tp.id)).Pairwise
        (fun a b => a.createdAt ≤ b.createdAt) ∧
      (∀ c, c ∈ ((finalGroup wStore1 tp.id).filter fun c =>
          decide (c.id ≠ tp.id)) ↔
        (c ∈ wStore1.contacts ∧ (c.id = tp.id ∨ c.linkedId = some tp.id) ∧
          c.deletedAt = none ∧ c.id ≠ tp.id)) :=
  c7_response_shape
    (show Store.Inv { contacts := [], nextId := 1 } by decide)
    (show identifyContact { contacts := [], nextId := 1 }
        (some "a@b") (some "1") =
      .ok ({ primaryContatctId := 1, emails := ["a@b"],
             phoneNumbers := ["1"], secondaryContactIds := [] },
        wStore1) by decide)

end BitSpeed
